import Mathlib

/-!
Verification of the KaziWiz policy-deliberation backend.

The definitions below are a shallow embedding of the Python sources:
  * `backend/app/services/output_validator.py`  (OutputValidator)
  * `backend/app/services/integrated_deliberation.py`  (IntegratedDeliberationSystem)
  * `backend/app/services/policy_service.py`  (PolicyService)
  * `Agentic-ai/uagent_main.py`  (AutoPolicyDeliberationSystem.kickoff)

Python strings are modelled as `List Char`; the LLM invocation layer is an
oracle returning `Except String (List Char)` (an exception message or the
generated text).  Floating-point arithmetic in the consensus heuristic is
exact in both systems for the values involved: the per-argument score is
stated over `ℚ`, and the consensus level is computed over exact
(numerator, denominator) pairs of naturals, with Python `int()` truncation
of the non-negative mean realised by natural-number division.
-/

set_option maxRecDepth 200000

deriving instance DecidableEq for Except

namespace KaziWiz

/-! ### Basic character/string machinery -/

/-- Convert a Lean string literal to the `List Char` representation used
throughout the embedding. -/
def toL (s : String) : List Char := s.toList

/-- Python `str.lower()` (ASCII behaviour, which covers all texts involved). -/
def lowerL (l : List Char) : List Char := l.map Char.toLower

/-- Python `str.upper()` (ASCII behaviour). -/
def upperL (l : List Char) : List Char := l.map Char.toUpper

/-- Bool-valued prefix test on character lists (tail-friendly version of
`l₁ <+: l₂`). -/
def isPrefixCL : List Char → List Char → Bool
  | [], _ => true
  | _ :: _, [] => false
  | a :: as, b :: bs => a == b && isPrefixCL as bs

/-- Bool-valued substring test: Python `needle in hay`. -/
def containsCL (n : List Char) : List Char → Bool
  | [] => n.isEmpty
  | c :: t => isPrefixCL n (c :: t) || containsCL n t

/-- Tail-recursive reverse-append used by the suffix test. -/
def revAppend : List Char → List Char → List Char
  | [], acc => acc
  | a :: as, acc => revAppend as (a :: acc)

/-- Tail-recursive list reversal. -/
def revCL (l : List Char) : List Char := revAppend l []

/-- Bool-valued suffix test on character lists. -/
def isSuffixCL (n h : List Char) : Bool := isPrefixCL (revCL n) (revCL h)

/-- Python `\s` (ASCII): space, tab, newline, carriage return, vertical tab,
form feed.  This is also the character set removed by `str.strip()`. -/
def isSpacePy (c : Char) : Bool :=
  c == ' ' || c == '\t' || c == '\n' || c == '\r' || c == Char.ofNat 11 || c == Char.ofNat 12

/-- Python regex `\w` (ASCII): letters, digits and underscore. -/
def isWordChar (c : Char) : Bool := c.isAlphanum || c == '_'

/-- Python regex `\d` (ASCII digits). -/
def isDigitChar (c : Char) : Bool := c.isDigit

/-- Number of keywords from `kws` occurring (as substrings) in `text`;
Python `sum(1 for kw in kws if kw in text)`. -/
def kwCount (kws : List (List Char)) (text : List Char) : ℕ :=
  List.countP (fun kw => containsCL kw text) kws

/-! ### Regex patterns of `OutputValidator.CODE_PATTERNS`

Each pattern of the Python source is a fixed alternation-free (except one
literal alternation) sequence of literals and character-class stars/plusses,
so it is represented as a list of atoms.  Matching is existential, exactly
like `re.search`; `re.IGNORECASE` is modelled by matching the lowercased
text against lowercase literals (the character classes are case-closed).
`re.MULTILINE` only affects anchors, which none of the patterns use. -/

inductive RAtom
  | lit (l : List Char)
  | wsPlus
  | wsStar
  | wordPlus
  | wordStar
  | digitPlus
  | oneOfChar (cs : List Char)
  | anyLit (ls : List (List Char))

/-- All ways to drop a (possibly empty) run of `p`-characters from the front
of `s`: the list of suffixes reachable by consuming `p`-characters. -/
def starDrops (p : Char → Bool) : List Char → List (List Char)
  | [] => [[]]
  | c :: t => (c :: t) :: (if p c then starDrops p t else [])

/-- Match a sequence of atoms at the start of `s` (consuming a prefix). -/
def matchAtoms : List RAtom → List Char → Bool
  | [], _ => true
  | .lit l :: ps, s => isPrefixCL l s && matchAtoms ps (s.drop l.length)
  | .wsPlus :: ps, s =>
    match s with
    | [] => false
    | c :: t => isSpacePy c && (starDrops isSpacePy t).any (fun r => matchAtoms ps r)
  | .wsStar :: ps, s => (starDrops isSpacePy s).any (fun r => matchAtoms ps r)
  | .wordPlus :: ps, s =>
    match s with
    | [] => false
    | c :: t => isWordChar c && (starDrops isWordChar t).any (fun r => matchAtoms ps r)
  | .wordStar :: ps, s => (starDrops isWordChar s).any (fun r => matchAtoms ps r)
  | .digitPlus :: ps, s =>
    match s with
    | [] => false
    | c :: t => isDigitChar c && (starDrops isDigitChar t).any (fun r => matchAtoms ps r)
  | .oneOfChar cs :: ps, s =>
    match s with
    | [] => false
    | c :: t => cs.contains c && matchAtoms ps t
  | .anyLit ls :: ps, s => ls.any (fun l => isPrefixCL l s && matchAtoms ps (s.drop l.length))

/-- `re.search`: try the pattern at every position of `s`. -/
def searchPat (ats : List RAtom) : List Char → Bool
  | [] => matchAtoms ats []
  | c :: t => matchAtoms ats (c :: t) || searchPat ats t

/-- `OutputValidator.CODE_PATTERNS`, in source order.  Literals are stored
lowercased (see the note on `re.IGNORECASE` above). -/
def CODE_PATTERNS : List (List RAtom) :=
  [ [.lit (toL "```"), .wordStar, .lit (toL "\n")],
    [.lit (toL "#include"), .wsPlus, .lit (toL "<")],
    [.lit (toL "import"), .wsPlus, .wordPlus, .wsPlus, .lit (toL "from")],
    [.lit (toL "def"), .wsPlus, .wordPlus, .wsStar, .lit (toL "(")],
    [.lit (toL "class"), .wsPlus, .wordPlus, .wsStar, .oneOfChar (toL ":(")],
    [.lit (toL "function"), .wsPlus, .wordPlus, .wsStar, .lit (toL "(")],
    [.lit (toL "<?php")],
    [.lit (toL "<!doctype")],
    [.lit (toL "<script")],
    [.anyLit [toL "glsl", toL "shader", toL "vertex", toL "fragment"]],
    [.lit (toL "layout"), .wsStar, .lit (toL "(location")],
    [.lit (toL "gl_position")],
    [.lit (toL "#version"), .wsPlus, .digitPlus],
    [.lit (toL "int"), .wsPlus, .lit (toL "main"), .wsStar, .lit (toL "(")],
    [.lit (toL "public"), .wsPlus, .lit (toL "static"), .wsPlus, .lit (toL "void"), .wsPlus,
      .lit (toL "main")],
    [.lit (toL "---\nlayout:")],
    [.lit (toL "$$"), .wsStar, .lit (toL "\\begin\x7b")] ]

/-- Index of the first code pattern matching the (lowercased) text, if any:
the `for pattern in CODE_PATTERNS` loop of `is_valid_policy_output`. -/
def firstPatternIdx (low : List Char) : Option ℕ :=
  CODE_PATTERNS.findIdx? (fun ats => searchPat ats low)

/-- `OutputValidator.CODE_KEYWORDS`. -/
def CODE_KEYWORDS : List (List Char) :=
  [ toL "jupyter", toL "notebook", toL "algorithm", toL "implementation",
    toL "compile", toL "runtime", toL "binary", toL "pointer", toL "malloc",
    toL "vertex", toL "shader", toL "rendering", toL "opengl", toL "webgl",
    toL "array", toL "buffer", toL "matrix multiplication", toL "gpu",
    toL "tensorflow", toL "pytorch", toL "neural network architecture",
    toL "docker", toL "kubernetes", toL "api endpoint", toL "sql query" ]

/-- The `policy_keywords` list of `is_valid_policy_output`. -/
def POLICY_KEYWORDS : List (List Char) :=
  [ toL "policy", toL "carbon tax", toL "economic", toL "fiscal", toL "impact",
    toL "government", toL "revenue", toL "emission", toL "climate", toL "environment",
    toL "stakeholder", toL "implementation", toL "analysis", toL "evidence" ]

/-- The reason component of the validator verdict (the Python code returns
these as strings; the payloads mirror the interpolated values). -/
inductive VReason
  | tooShort
  | codePattern (idx : ℕ)
  | tooManyCodeKeywords (count : ℕ)
  | lacksPolicyContent
  | validPolicyAnalysis
deriving DecidableEq

/-- `OutputValidator.is_valid_policy_output`. -/
def is_valid_policy_output (output : List Char) : Bool × VReason :=
  if output.length < 50 then (false, .tooShort)
  else
    let low := lowerL output
    match firstPatternIdx low with
    | some i => (false, .codePattern i)
    | none =>
      let ck := kwCount CODE_KEYWORDS low
      if 3 ≤ ck then (false, .tooManyCodeKeywords ck)
      else
        let pk := kwCount POLICY_KEYWORDS low
        if pk < 2 then (false, .lacksPolicyContent)
        else (true, .validPolicyAnalysis)

/-! ### `OutputValidator.extract_policy_content`

Five `re.sub` passes followed by `str.strip()`.  Each substitution pattern is
implemented directly: `scanSub` is the generic leftmost-match scan of
`re.sub` (a matcher returns the match length and replacement text). -/

/-- Index of the first occurrence of the literal `lit` in `s`. -/
def firstIdxOfLit (lit : List Char) : List Char → Option ℕ
  | [] => if lit.isEmpty then some 0 else none
  | c :: t =>
    if isPrefixCL lit (c :: t) then some 0
    else (firstIdxOfLit lit t).map (· + 1)

/-- Length of the maximal front run of `p`-characters. -/
def countWhile (p : Char → Bool) : List Char → ℕ
  | [] => 0
  | c :: t => if p c then countWhile p t + 1 else 0

/-- Generic `re.sub` scan: at each position try the matcher; on a match emit
the replacement and resume after the matched text, otherwise keep the
character.  All matchers used return length ≥ 1. -/
def scanSub (f : List Char → Option (ℕ × List Char)) : List Char → List Char
  | [] => []
  | c :: t =>
    match f (c :: t) with
    | some (n, rep) => rep ++ scanSub f (t.drop (n - 1))
    | none => c :: scanSub f t
termination_by s => s.length
decreasing_by
  · simp only [List.length_cons]
    have := List.length_drop (n - 1) t
    omega
  · simp [List.length_cons]

/-- Matcher for `r'```[\w]*\n.*?```'` (`re.DOTALL`): opening fence, a greedy
word run, a newline, then the shortest stretch up to a closing fence. -/
def mCodeBlock (s : List Char) : Option (ℕ × List Char) :=
  if isPrefixCL (toL "```") s then
    let r1 := s.drop 3
    let w := countWhile isWordChar r1
    match r1.drop w with
    | '\n' :: rest =>
      match firstIdxOfLit (toL "```") rest with
      | some j => some (3 + w + 1 + j + 3, [])
      | none => none
    | _ => none
  else none

/-- Matcher for `r'<[^>]+>'`. -/
def mTag (s : List Char) : Option (ℕ × List Char) :=
  match s with
  | '<' :: t =>
    match firstIdxOfLit (toL ">") t with
    | some j => if 1 ≤ j then some (j + 2, []) else none
    | none => none
  | _ => none

/-- Matcher for `r'\$\$.*?\$\$'` (`re.DOTALL`). -/
def mMath (s : List Char) : Option (ℕ × List Char) :=
  if isPrefixCL (toL "$$") s then
    match firstIdxOfLit (toL "$$") (s.drop 2) with
    | some j => some (2 + j + 2, [])
    | none => none
  else none

/-- Matcher for `r'^---.*?---'` (`re.DOTALL | re.MULTILINE`); only tried at
line starts by `scanSubLS`. -/
def mFrontmatter (s : List Char) : Option (ℕ × List Char) :=
  if isPrefixCL (toL "---") s then
    match firstIdxOfLit (toL "---") (s.drop 3) with
    | some j => some (3 + j + 3, [])
    | none => none
  else none

/-- Matcher for `r'\n{3,}'` with replacement `"\n\n"`. -/
def mNewlines (s : List Char) : Option (ℕ × List Char) :=
  match s with
  | '\n' :: _ =>
    let r := countWhile (fun c => c == '\n') s
    if 3 ≤ r then some (r, toL "\n\n") else none
  | _ => none

/-- `re.sub` scan for the `^`-anchored frontmatter pattern: the matcher is
only tried when the position is at the start of the text or follows a
newline (`re.MULTILINE` semantics). -/
def scanSubLS (f : List Char → Option (ℕ × List Char)) : Bool → List Char → List Char
  | _, [] => []
  | atLS, c :: t =>
    if atLS then
      match f (c :: t) with
      | some (n, rep) => rep ++ scanSubLS f false (t.drop (n - 1))
      | none => c :: scanSubLS f (c == '\n') t
    else c :: scanSubLS f (c == '\n') t
termination_by _ s => s.length
decreasing_by
  · simp only [List.length_cons]
    have := List.length_drop (n - 1) t
    omega
  · simp [List.length_cons]
  · simp [List.length_cons]

/-- Python `str.strip()`. -/
def pyStrip (l : List Char) : List Char :=
  ((l.dropWhile isSpacePy).reverse.dropWhile isSpacePy).reverse

/-- `OutputValidator.extract_policy_content`. -/
def extract_policy_content (output : List Char) : List Char :=
  pyStrip (scanSub mNewlines
    (scanSubLS mFrontmatter true
      (scanSub mMath (scanSub mTag (scanSub mCodeBlock output)))))

/-! ### `OutputValidator.create_fallback_response`

The f-string template, split at the interpolation points: the result is
`fbSeg0 ++ role ++ fbSeg1 ++ topic ++ fbSeg2 ++ topic ++ fbSeg3 ++ topic ++ fbSeg4`. -/

def fbSeg0 : List Char := toL "\n**"

def fbSeg1 : List Char := toL " Analysis: "

def fbSeg2 : List Char := toL "**\n\n**Position:** CONDITIONAL SUPPORT\n\n**Key Considerations:**\n\n1. **Evidence Required:** Due to technical limitations in generating detailed analysis, I recommend consulting recent policy research reports and case studies on "

def fbSeg3 : List Char := toL ".\n\n2. **Economic Impact:** The economic implications of "

def fbSeg4 : List Char := toL " require careful evaluation of fiscal impacts, market effects, and distributional consequences across different stakeholder groups.\n\n3. **Implementation Feasibility:** Successful implementation depends on regulatory framework design, enforcement mechanisms, and stakeholder engagement.\n\n4. **Risk Assessment:** Potential unintended consequences must be evaluated through pilot programs and phased rollout approaches.\n\n**Recommendation:** Conduct comprehensive cost-benefit analysis and stakeholder consultation before proceeding with policy implementation.\n\n*Note: This is a placeholder response. For detailed analysis, please consult subject matter experts and peer-reviewed policy research.*\n"

/-- `OutputValidator.create_fallback_response`. -/
def create_fallback_response (agent_role policy_topic : List Char) : List Char :=
  fbSeg0 ++ agent_role ++ fbSeg1 ++ policy_topic ++ fbSeg2 ++ policy_topic ++ fbSeg3
    ++ policy_topic ++ fbSeg4

/-! ### Consensus heuristic (`IntegratedDeliberationSystem._assess_consensus`) -/

def agreement_keywords : List (List Char) :=
  [toL "agree", toL "support", toL "concur", toL "consensus", toL "aligned", toL "correct"]

def disagreement_keywords : List (List Char) :=
  [toL "disagree", toL "oppose", toL "against", toL "however", toL "but", toL "contrary"]

/-- The per-argument contribution inside `_assess_consensus`:
`agreement/(agreement+disagreement)*100` when a keyword is present, else no
contribution (0). -/
def perArgScore (arg : List Char) : ℚ :=
  let low := lowerL arg
  let a := kwCount agreement_keywords low
  let d := kwCount disagreement_keywords low
  if 0 < a + d then ((a : ℚ) / ((a : ℚ) + (d : ℚ))) * 100 else 0

/-- The per-argument contribution as an exact fraction (numerator,
denominator) over ℕ: `(100*a, a+d)` when a keyword is present, else `0`
(represented `(0, 1)`).  This is the same value as `perArgScore`, kept in
fraction form so that the consensus level is computable by evaluation. -/
def perArgFrac (arg : List Char) : ℕ × ℕ :=
  let low := lowerL arg
  let a := kwCount agreement_keywords low
  let d := kwCount disagreement_keywords low
  if 0 < a + d then (100 * a, a + d) else (0, 1)

/-- Exact addition of fractions (no reduction needed). -/
def addFrac (p q : ℕ × ℕ) : ℕ × ℕ := (p.1 * q.2 + q.1 * p.2, p.2 * q.2)

/-- `_assess_consensus` over the round argument texts (the values of the
`round_arguments` dict, in insertion order).  `total` is the exact sum of
the per-argument scores; `int(total_score / len(...))` on the non-negative
mean is truncation, i.e. the floor implemented here by ℕ division of the
exact fraction. -/
def assess_consensus (args : List (List Char)) : ℤ :=
  let total := (args.map perArgFrac).foldr addFrac (0, 1)
  let lvl : ℤ := if args.isEmpty then 0 else (total.1 / (total.2 * args.length) : ℕ)
  min (max lvl 0) 100

/-! ### Decision extraction (`phase_results`) -/

/-- The decision-label scan at the end of `phase_results`:
`result_str = str(result).upper()` followed by the `in` checks. -/
def extract_decision (s : List Char) : String :=
  let u := upperL s
  if containsCL (toL "APPROVED") u || containsCL (toL "APPROVE") u then "APPROVED"
  else if containsCL (toL "REJECTED") u || containsCL (toL "REJECT") u then "REJECTED"
  else "CONDITIONAL"

/-! ### Agent catalog (`DecisionAgentSystem.get_all_agent_definitions` and
`IntegratedDeliberationSystem.initialize_agents`)

All 27 catalog entries have a method in `method_map`/`DecisionAgentSystem`,
so `initialize_agents` realizes every one of them, in definition order. -/

def AGENT_IDS : List String :=
  [ "problem_statement", "turn_management", "voting_announcement",
    "economic", "social", "geospatial", "income", "resource", "legal",
    "economic_macro", "economic_micro", "policy_impact", "trade_investment",
    "healthcare_welfare", "education_welfare", "housing_welfare",
    "geographic_poverty", "demographic_policy", "resource_access",
    "inequality_causes", "income_redistribution", "inequality_impact",
    "resource_optimization", "realtime_allocation", "system_efficiency",
    "policy_monitoring", "adaptive_policy" ]

/-- The domain experts: `[a for a in agents.keys() if a not in
['problem_statement', 'turn_management', 'voting_announcement']]`. -/
def DOMAIN_EXPERTS : List String :=
  AGENT_IDS.filter (fun a =>
    !(a == "problem_statement" || a == "turn_management" || a == "voting_announcement"))

/-- The research-phase iteration order: the `research_groups` dict of
`phase_research`, flattened in insertion order. -/
def RESEARCH_ORDER : List String :=
  [ "economic", "economic_macro", "economic_micro", "policy_impact", "trade_investment",
    "social", "healthcare_welfare", "education_welfare", "housing_welfare",
    "geospatial", "geographic_poverty", "demographic_policy", "resource_access",
    "income", "inequality_causes", "income_redistribution", "inequality_impact",
    "resource", "resource_optimization", "realtime_allocation", "system_efficiency",
    "policy_monitoring", "adaptive_policy",
    "legal" ]

/-- Python `agent_id.replace('_', ' ').title()`. -/
def titleChars : Bool → List Char → List Char
  | _, [] => []
  | prevAlpha, c :: t =>
    if c.isAlpha then (if prevAlpha then c.toLower else c.toUpper) :: titleChars true t
    else c :: titleChars false t

/-- Display name of an agent: `agent_id.replace('_', ' ').title()`. -/
def titleName (id : String) : List Char :=
  titleChars false ((toL id).map (fun c => if c == '_' then ' ' else c))

/-! ### The orchestrator pipeline (`IntegratedDeliberationSystem`)

The LLM invocation boundary (`crew.kickoff`) is an oracle from task keys to
either an exception message or the produced text.  Each `(phase, agent)`
task is invoked at most once per run, so keying the oracle by task identity
is a faithful model of the black-box capability.  Each phase function
returns the WebSocket events it emitted together with either its recorded
result or the first exception message. -/

inductive TaskKey
  | problemTask
  | researchTask (agent : String)
  | debateTask (round : ℕ) (agent : String)
  | voteTask (agent : String)
  | resultsTask
deriving DecidableEq

/-- The external LLM capability. -/
def Oracle : Type := TaskKey → Except String (List Char)

inductive Event
  | phase_started (phase : ℕ)
  | phase_completed (phase : ℕ)
  | agent_created (id : String)
  | agent_started (id : String)
  | agent_completed (id : String)
  | debate_round_started (round : ℕ)
  | consensus_check (round : ℕ) (level : ℤ)
  | consensus_reached (round : ℕ)
  | vote_cast (id : String)
  | results_announced (decision : String)
  | report_generated
  | deliberation_complete
  | deliberation_error (msg : String)
deriving DecidableEq

/-- The validation-and-record step shared by `phase_problem_statement` and
`phase_research`: a rejected output is replaced by the fallback, an
accepted one is cleaned up by `extract_policy_content`. -/
def validateRecord (raw : List Char) (role : List Char) (topic : List Char) : List Char :=
  if (is_valid_policy_output raw).1 then extract_policy_content raw
  else create_fallback_response role topic

/-- `phase_problem_statement` (phase 2). -/
def phase_problem_statement (invoke : Oracle) (topic : List Char) :
    List Event × Except String (List Char) :=
  match invoke .problemTask with
  | .error e => ([.phase_started 2, .agent_started "problem_statement"], .error e)
  | .ok raw =>
    ([.phase_started 2, .agent_started "problem_statement",
      .agent_completed "problem_statement", .phase_completed 2],
     .ok (validateRecord raw (toL "Problem Statement Expert") topic))

/-- The inner loop of `phase_research`: one validated record per agent. -/
def researchLoop (invoke : Oracle) (topic : List Char) :
    List String → List Event × Except String (List (String × List Char))
  | [] => ([], .ok [])
  | id :: rest =>
    match invoke (.researchTask id) with
    | .error e => ([.agent_started id], .error e)
    | .ok raw =>
      match researchLoop invoke topic rest with
      | (evs, res) =>
        ([.agent_started id, .agent_completed id] ++ evs,
         res.map (fun others => (id, validateRecord raw (titleName id) topic) :: others))

/-- `phase_research` (phase 3). -/
def phase_research (invoke : Oracle) (topic : List Char) :
    List Event × Except String (List (String × List Char)) :=
  match researchLoop invoke topic RESEARCH_ORDER with
  | (evs, .error e) => ([.phase_started 3] ++ evs, .error e)
  | (evs, .ok rs) => ([.phase_started 3] ++ evs ++ [.phase_completed 3], .ok rs)

/-- One debate-history record: `{'round': ..., 'agent_id': ...,
'agent_name': ..., 'argument': ...}`. -/
structure DebateEntry where
  round : ℕ
  agent_id : String
  agent_name : List Char
  argument : List Char
deriving DecidableEq

/-- The record stored as `self.results['debate']`. -/
structure DebateOutcome where
  history : List DebateEntry
  rounds : ℕ
  consensus_reached : Bool
deriving DecidableEq

/-- One debate round over all domain experts, collecting
`round_arguments` in agent order. -/
def debateAgentsLoop (invoke : Oracle) (round : ℕ) :
    List String → List Event × Except String (List (String × List Char))
  | [] => ([], .ok [])
  | id :: rest =>
    match invoke (.debateTask round id) with
    | .error e => ([.agent_started id], .error e)
    | .ok raw =>
      match debateAgentsLoop invoke round rest with
      | (evs, res) =>
        ([.agent_started id, .agent_completed id] ++ evs,
         res.map (fun others => (id, raw) :: others))

/-- The `for round_num in range(1, max_rounds + 1)` loop of `phase_debate`:
the remaining round numbers are passed as a list, `lastRound` is the value
of `round_num` from the previous iteration.  After each round before the
last, the consensus level is assessed and the loop breaks at level ≥ 70. -/
def debateRoundsLoop (invoke : Oracle) (experts : List String) (maxRounds : ℕ) :
    List ℕ → List DebateEntry → ℕ → List Event × Except String DebateOutcome
  | [], history, lastRound => ([], .ok ⟨history, lastRound, false⟩)
  | r :: rest, history, _ =>
    match debateAgentsLoop invoke r experts with
    | (evs, .error e) => ([.debate_round_started r] ++ evs, .error e)
    | (evs, .ok roundArgs) =>
      let history2 := history ++ roundArgs.map (fun p => ⟨r, p.1, titleName p.1, p.2⟩)
      if r < maxRounds then
        let level := assess_consensus (roundArgs.map (fun p => p.2))
        if 70 ≤ level then
          ([.debate_round_started r] ++ evs ++
            [.consensus_check r level, .consensus_reached r],
           .ok ⟨history2, r, true⟩)
        else
          match debateRoundsLoop invoke experts maxRounds rest history2 r with
          | (evs2, res) =>
            ([.debate_round_started r] ++ evs ++ [.consensus_check r level] ++ evs2, res)
      else
        match debateRoundsLoop invoke experts maxRounds rest history2 r with
        | (evs2, res) => ([.debate_round_started r] ++ evs ++ evs2, res)

/-- `phase_debate` (phase 4): `max_rounds = 3`. -/
def phase_debate (invoke : Oracle) (experts : List String) :
    List Event × Except String DebateOutcome :=
  match debateRoundsLoop invoke experts 3 [1, 2, 3] [] 0 with
  | (evs, .error e) => ([.phase_started 4] ++ evs, .error e)
  | (evs, .ok o) => ([.phase_started 4] ++ evs ++ [.phase_completed 4], .ok o)

/-- The voting loop of `phase_voting`: the raw task output is recorded as
the vote (`voting_results[agent_id] = str(result)`). -/
def votingLoop (invoke : Oracle) :
    List String → List Event × Except String (List (String × List Char))
  | [] => ([], .ok [])
  | id :: rest =>
    match invoke (.voteTask id) with
    | .error e => ([.agent_started id], .error e)
    | .ok raw =>
      match votingLoop invoke rest with
      | (evs, res) =>
        ([.agent_started id, .vote_cast id, .agent_completed id] ++ evs,
         res.map (fun others => (id, raw) :: others))

/-- `phase_voting` (phase 5). -/
def phase_voting (invoke : Oracle) (experts : List String) :
    List Event × Except String (List (String × List Char)) :=
  match votingLoop invoke experts with
  | (evs, .error e) => ([.phase_started 5] ++ evs, .error e)
  | (evs, .ok vs) => ([.phase_started 5] ++ evs ++ [.phase_completed 5], .ok vs)

/-- `phase_results` (phase 6): the raw announcement is recorded and the
decision label extracted from it. -/
def phase_results (invoke : Oracle) : List Event × Except String (List Char × String) :=
  match invoke .resultsTask with
  | .error e => ([.phase_started 6, .agent_started "voting_announcement"], .error e)
  | .ok raw =>
    ([.phase_started 6, .agent_started "voting_announcement",
      .results_announced (extract_decision raw), .phase_completed 6],
     .ok (raw, extract_decision raw))

/-- The accumulated `self.results` dict, one optional slot per phase. -/
structure DelibResults where
  problem_statement : Option (List Char)
  research : Option (List (String × List Char))
  debate : Option DebateOutcome
  voting : Option (List (String × List Char))
  final_announcement : Option (List Char)
  final_decision : Option String
  final_report : Option (ℕ × ℕ × String)
deriving DecidableEq

def DelibResults.empty : DelibResults := ⟨none, none, none, none, none, none, none⟩

/-- The outcome of `run_deliberation`: `{'success': True, ...}` or
`{'success': False, 'error': str(e)}`. -/
inductive RunOutcome
  | successRun (final_decision : String)
  | failureRun (error : String)
deriving DecidableEq

/-- `IntegratedDeliberationSystem.run_deliberation`: the phases in
sequence; the first exception anywhere propagates to the top-level handler,
which emits a single `deliberation_error` event and returns failure with
the raw message.  The third component is the orchestrator state
`self.results` when the run ends. -/
def run_deliberation (invoke : Oracle) (topic : List Char) :
    List Event × RunOutcome × DelibResults :=
  let initEvents : List Event :=
    [.phase_started 1] ++ AGENT_IDS.map Event.agent_created ++ [.phase_completed 1]
  match phase_problem_statement invoke topic with
  | (e2, .error err) =>
    (initEvents ++ e2 ++ [.deliberation_error err], .failureRun err, DelibResults.empty)
  | (e2, .ok ps) =>
    let st1 : DelibResults := { DelibResults.empty with problem_statement := some ps }
    match phase_research invoke topic with
    | (e3, .error err) =>
      (initEvents ++ e2 ++ e3 ++ [.deliberation_error err], .failureRun err, st1)
    | (e3, .ok rs) =>
      let st2 : DelibResults := { st1 with research := some rs }
      match phase_debate invoke DOMAIN_EXPERTS with
      | (e4, .error err) =>
        (initEvents ++ e2 ++ e3 ++ e4 ++ [.deliberation_error err], .failureRun err, st2)
      | (e4, .ok db) =>
        let st3 : DelibResults := { st2 with debate := some db }
        match phase_voting invoke DOMAIN_EXPERTS with
        | (e5, .error err) =>
          (initEvents ++ e2 ++ e3 ++ e4 ++ e5 ++ [.deliberation_error err],
           .failureRun err, st3)
        | (e5, .ok vs) =>
          let st4 : DelibResults := { st3 with voting := some vs }
          match phase_results invoke with
          | (e6, .error err) =>
            (initEvents ++ e2 ++ e3 ++ e4 ++ e5 ++ e6 ++ [.deliberation_error err],
             .failureRun err, st4)
          | (e6, .ok (ann, dec)) =>
            let st5 : DelibResults :=
              { st4 with final_announcement := some ann, final_decision := some dec,
                         final_report := some (rs.length, vs.length, dec) }
            (initEvents ++ e2 ++ e3 ++ e4 ++ e5 ++ e6 ++
              [.phase_started 7, .report_generated, .phase_completed 7,
               .deliberation_complete],
             .successRun dec, st5)

/-- The session view after `PolicyService._run_deliberation` finishes:
status plus either the error map or the deliberation results. -/
structure SessionFinal where
  status : String
  errorResult : Option String
  okResults : Option DelibResults
deriving DecidableEq

/-- `PolicyService._run_deliberation`: on `success` the session is marked
completed with the results; otherwise the status becomes "error" and
`session.results = {'error': ...}`.  (`run_deliberation` catches all
exceptions itself, so the service-level handler is not reached.) -/
def policy_run (invoke : Oracle) (topic : List Char) : SessionFinal :=
  match run_deliberation invoke topic with
  | (_, .successRun _, st) => ⟨"completed", none, some st⟩
  | (_, .failureRun e, _) => ⟨"error", some e, none⟩

/-! ### `AutoPolicyDeliberationSystem.kickoff` (`Agentic-ai/uagent_main.py`) -/

/-- The mutable parameters of `AutoPolicyDeliberationSystem` consulted by
`kickoff`. -/
structure AutoSysState where
  policy_topic : String
  background_context : String
  city_data : String
  policy_type : String
  time_range : String
  interests : String
deriving DecidableEq

/-- The recognized keys of the `inputs` dict (`update_parameters` only sets
attributes that exist, so the stray `mode` key never touches the state). -/
structure KickoffInputs where
  policy_topic : Option String
  background_context : Option String
  city_data : Option String
  policy_type : Option String
  time_range : Option String
  interests : Option String
  mode : Option String
deriving DecidableEq

/-- `update_parameters(**inputs)`. -/
def update_parameters (st : AutoSysState) (i : KickoffInputs) : AutoSysState :=
  ⟨i.policy_topic.getD st.policy_topic,
   i.background_context.getD st.background_context,
   i.city_data.getD st.city_data,
   i.policy_type.getD st.policy_type,
   i.time_range.getD st.time_range,
   i.interests.getD st.interests⟩

/-- The context-building block of `kickoff` (the `if self.city_data or ...`
branch); Python truthiness of a string is non-emptiness. -/
def buildContextState (st : AutoSysState) : AutoSysState :=
  if st.city_data ≠ "" ∨ st.policy_type ≠ "" ∨ st.time_range ≠ "" ∨ st.interests ≠ "" then
    let parts : List String :=
      (if st.city_data ≠ "" then ["City/Region: " ++ st.city_data] else []) ++
      (if st.policy_type ≠ "" then ["Policy Type: " ++ st.policy_type] else []) ++
      (if st.time_range ≠ "" then ["Evaluation Timeframe: " ++ st.time_range] else []) ++
      (if st.interests ≠ "" then ["Key Evaluation Criteria: " ++ st.interests] else [])
    let joined := String.intercalate "\n" parts
    if st.background_context = "" then { st with background_context := joined }
    else { st with background_context := st.background_context ++ "\n\n" ++ joined }
  else st

/-- Which run method `kickoff` dispatches to, with its arguments. -/
inductive KickoffDispatch
  | full_deliberation (topic context : String)
  | quick_analysis (st : AutoSysState)
  | research_only_run (st : AutoSysState)
  | debate_only_run (st : AutoSysState)
deriving DecidableEq

/-- `AutoPolicyDeliberationSystem.kickoff`. -/
def kickoff (st : AutoSysState) (inputs : Option KickoffInputs) : KickoffDispatch :=
  let st1 := match inputs with
    | some i => update_parameters st i
    | none => st
  let st2 := buildContextState st1
  let mode : String := match inputs with
    | some i => i.mode.getD "full"
    | none => "full"
  if mode = "full" then .full_deliberation st2.policy_topic st2.background_context
  else if mode = "quick" then .quick_analysis st2
  else if mode = "research_only" then .research_only_run st2
  else if mode = "debate_only" then .debate_only_run st2
  else .full_deliberation st2.policy_topic st2.background_context

/-! ### Auxiliary definitions used by the statements below -/

/-- Replace the `mode` entry of a kickoff input dict. -/
def setMode (i : KickoffInputs) (m : Option String) : KickoffInputs :=
  ⟨i.policy_topic, i.background_context, i.city_data, i.policy_type,
   i.time_range, i.interests, m⟩

/-- Whether `self.results` holds the record of phase `q`. -/
def phaseRecorded (st : DelibResults) : ℕ → Bool
  | 2 => st.problem_statement.isSome
  | 3 => st.research.isSome
  | 4 => st.debate.isSome
  | 5 => st.voting.isSome
  | 6 => st.final_decision.isSome && st.final_announcement.isSome
  | 7 => st.final_report.isSome
  | _ => false

/-- Check that no split `k = k₁ ++ k₂` (both parts non-empty) has `k₂` a
prefix of `c` or `c` a prefix of `k₂`: used to rule out an occurrence of
the keyword `k` crossing a boundary whose right side starts with the
template segment `c`. -/
def spanRightB (k c : List Char) : Bool :=
  (List.range k.length).all fun j =>
    (k.drop (j + 1)).isEmpty ||
      (!(isPrefixCL (k.drop (j + 1)) c) && !(isPrefixCL c (k.drop (j + 1))))

/-- Check that no split `k = k₁ ++ k₂` (both parts non-empty) has `k₁` a
suffix of `c` or `c` a suffix of `k₁`: used to rule out an occurrence of
the keyword `k` crossing a boundary whose left side ends with the template
segment `c`. -/
def spanLeftB (k c : List Char) : Bool :=
  (List.range k.length).all fun j =>
    (k.drop (j + 1)).isEmpty ||
      (!(isSuffixCL (k.take (j + 1)) c) && !(isSuffixCL c (k.take (j + 1))))

/-- All the decidable side conditions needed to show that a keyword absent
from the inserted role and topic cannot occur anywhere in the fallback
template text: absence from each template segment, plus the boundary
span checks for each insertion point. -/
def keywordSafeB (k : List Char) : Bool :=
  !(containsCL k (lowerL fbSeg0)) && !(containsCL k (lowerL fbSeg1)) &&
  !(containsCL k (lowerL fbSeg2)) && !(containsCL k (lowerL fbSeg3)) &&
  !(containsCL k (lowerL fbSeg4)) &&
  spanLeftB k (lowerL fbSeg0) &&
  spanRightB k (lowerL fbSeg1) && spanLeftB k (lowerL fbSeg1) &&
  spanRightB k (lowerL fbSeg2) && spanLeftB k (lowerL fbSeg2) &&
  spanRightB k (lowerL fbSeg3) && spanLeftB k (lowerL fbSeg3) &&
  spanRightB k (lowerL fbSeg4)

/-- The debate-history block produced by one round: one entry per expert,
in invocation order. -/
def roundBlock (produce : ℕ → String → List Char) (experts : List String) (r : ℕ) :
    List DebateEntry :=
  experts.map (fun id => DebateEntry.mk r id (titleName id) (produce r id))

/-- The debate outcome on a failure-free oracle, written out explicitly:
exit after round 1 or 2 when that round's consensus level reaches 70,
otherwise after the full 3 rounds (used to state and prove the debate-loop
claims; `phase_debate_run` below proves that `phase_debate` produces
exactly this). -/
def expectedDebate (produce : ℕ → String → List Char) (experts : List String) :
    DebateOutcome :=
  if 70 ≤ assess_consensus (experts.map (produce 1)) then
    ⟨roundBlock produce experts 1, 1, true⟩
  else if 70 ≤ assess_consensus (experts.map (produce 2)) then
    ⟨roundBlock produce experts 1 ++ roundBlock produce experts 2, 2, true⟩
  else
    ⟨roundBlock produce experts 1 ++ roundBlock produce experts 2 ++
      roundBlock produce experts 3, 3, false⟩

/-! ### Bridge lemmas between the Bool-level string functions and the
`List` prefix/suffix/infix relations -/

theorem isPrefixCL_iff (n h : List Char) : isPrefixCL n h = true ↔ n <+: h := by
  induction n generalizing h with
  | nil => simp [isPrefixCL, List.nil_prefix]
  | cons a as ih =>
    cases h with
    | nil => simp [isPrefixCL]
    | cons b bs => simp [isPrefixCL, List.cons_prefix_cons, ih, And.comm]

theorem containsCL_iff (n h : List Char) : containsCL n h = true ↔ n <:+: h := by
  induction h with
  | nil => simp [containsCL, List.infix_nil, List.isEmpty_iff]
  | cons c t ih => simp [containsCL, List.infix_cons_iff, isPrefixCL_iff, ih]

theorem revAppend_eq (l acc : List Char) : revAppend l acc = l.reverse ++ acc := by
  induction l generalizing acc with
  | nil => simp [revAppend]
  | cons a as ih => simp [revAppend, ih]

theorem revCL_eq (l : List Char) : revCL l = l.reverse := by
  simp [revCL, revAppend_eq]

theorem isSuffixCL_iff (n h : List Char) : isSuffixCL n h = true ↔ n <:+ h := by
  rw [isSuffixCL, revCL_eq, revCL_eq, isPrefixCL_iff]
  exact List.reverse_prefix

/-! ### Lemmas for claim C2 (per-argument consensus score) -/

/-- C2: for every argument text, the per-argument consensus score is 100
when the (substring-matched) agreement-keyword count is positive and the
disagreement-keyword count is zero; it is 0 when only disagreement
keywords match, and 0 when neither set matches. -/
theorem c2_per_argument_score (arg : List Char) :
    (0 < kwCount agreement_keywords (lowerL arg) ∧
        kwCount disagreement_keywords (lowerL arg) = 0 →
      perArgScore arg = 100) ∧
    (kwCount agreement_keywords (lowerL arg) = 0 ∧
        0 < kwCount disagreement_keywords (lowerL arg) →
      perArgScore arg = 0) ∧
    (kwCount agreement_keywords (lowerL arg) = 0 ∧
        kwCount disagreement_keywords (lowerL arg) = 0 →
      perArgScore arg = 0) := by
  refine ⟨fun ⟨ha, hd⟩ => ?_, fun ⟨ha, hd⟩ => ?_, fun ⟨ha, hd⟩ => ?_⟩
  · have hne : (kwCount agreement_keywords (lowerL arg) : ℚ) ≠ 0 :=
      Nat.cast_ne_zero.mpr (Nat.pos_iff_ne_zero.mp ha)
    simp only [perArgScore, hd, Nat.add_zero, ha, if_pos, Nat.cast_zero, add_zero]
    rw [div_self hne]
    norm_num
  · simp only [perArgScore, ha, Nat.zero_add, Nat.cast_zero, zero_add, zero_div, zero_mul,
      if_pos hd, ite_self]
  · simp only [perArgScore, ha, hd]
    norm_num

/-- Witness for C2 at three concrete argument texts. -/
theorem c2_per_argument_score_witness :
    perArgScore (toL "i concur") = 100 ∧ perArgScore (toL "i oppose") = 0 ∧
      perArgScore (toL "hello") = 0 :=
  ⟨(c2_per_argument_score (toL "i concur")).1 ⟨by decide, by decide⟩,
   (c2_per_argument_score (toL "i oppose")).2.1 ⟨by decide, by decide⟩,
   (c2_per_argument_score (toL "hello")).2.2 ⟨by decide, by decide⟩⟩

/-- C8: the round consensus score is an integer in [0, 100] for every
non-empty collection of argument texts. -/
theorem c8_consensus_score_range (args : List (List Char)) (_h : args ≠ []) :
    0 ≤ assess_consensus args ∧ assess_consensus args ≤ 100 := by
  unfold assess_consensus
  refine ⟨le_min (le_max_right _ _) (by norm_num), min_le_right _ _⟩

/-- Witness for C8 at a concrete non-empty argument list. -/
theorem c8_consensus_score_range_witness :
    0 ≤ assess_consensus [toL "i agree", toL "however"] ∧
      assess_consensus [toL "i agree", toL "however"] ≤ 100 :=
  c8_consensus_score_range [toL "i agree", toL "however"] (by decide)

/-- C9 (amended-free, confirmed): kickoff with an unrecognized mode string
behaves identically to kickoff with mode "full" on the same remaining
inputs — both dispatch to the full deliberation run with the same topic
and context. -/
theorem c9_unknown_mode_defaults_to_full (st : AutoSysState) (i : KickoffInputs)
    (m : String) (hm : m ∉ ["full", "quick", "research_only", "debate_only"]) :
    kickoff st (some (setMode i (some m))) = kickoff st (some (setMode i (some "full"))) := by
  simp only [List.mem_cons, not_or] at hm
  obtain ⟨h1, h2, h3, h4, -⟩ := hm
  have hupd : update_parameters st (setMode i (some m)) =
      update_parameters st (setMode i (some "full")) := rfl
  simp only [kickoff, setMode, Option.getD_some, hupd]
  rw [if_neg h1, if_neg h2, if_neg h3, if_neg h4]
  rfl

/-- Witness for C9 at a concrete state, inputs and unknown mode. -/
theorem c9_unknown_mode_defaults_to_full_witness :
    kickoff ⟨"T", "", "", "", "", ""⟩
        (some (setMode ⟨none, none, some "Nairobi", none, none, none, none⟩ (some "banana"))) =
      kickoff ⟨"T", "", "", "", "", ""⟩
        (some (setMode ⟨none, none, some "Nairobi", none, none, none, none⟩ (some "full"))) :=
  c9_unknown_mode_defaults_to_full ⟨"T", "", "", "", "", ""⟩
    ⟨none, none, some "Nairobi", none, none, none, none⟩ "banana" (by decide)

/-! ### Claim C3: full characterization of `is_valid_policy_output` -/

/-- C3: `is_valid_policy_output` accepts iff the text is at least 50
characters long, no code pattern matches, fewer than 3 code keywords match
and at least 2 policy keywords match; otherwise it rejects with the reason
of the first failing step in the order: too short, code pattern, too many
code keywords, lacks policy content.  In particular any text under 50
characters is rejected as too short, and a text matched by any code
pattern (e.g. a fenced code block, the first pattern) is rejected
regardless of policy-keyword density. -/
theorem c3_classify_characterization (output : List Char) :
    ((is_valid_policy_output output).1 = true ↔
      50 ≤ output.length ∧ firstPatternIdx (lowerL output) = none ∧
        kwCount CODE_KEYWORDS (lowerL output) < 3 ∧
        2 ≤ kwCount POLICY_KEYWORDS (lowerL output)) ∧
    (output.length < 50 → is_valid_policy_output output = (false, .tooShort)) ∧
    (∀ i, 50 ≤ output.length → firstPatternIdx (lowerL output) = some i →
      is_valid_policy_output output = (false, .codePattern i)) ∧
    (50 ≤ output.length → firstPatternIdx (lowerL output) = none →
      3 ≤ kwCount CODE_KEYWORDS (lowerL output) →
      is_valid_policy_output output =
        (false, .tooManyCodeKeywords (kwCount CODE_KEYWORDS (lowerL output)))) ∧
    (50 ≤ output.length → firstPatternIdx (lowerL output) = none →
      kwCount CODE_KEYWORDS (lowerL output) < 3 →
      kwCount POLICY_KEYWORDS (lowerL output) < 2 →
      is_valid_policy_output output = (false, .lacksPolicyContent)) ∧
    (∀ p ∈ CODE_PATTERNS, searchPat p (lowerL output) = true →
      (is_valid_policy_output output).1 = false) := by
  have harm2 : output.length < 50 → is_valid_policy_output output = (false, .tooShort) := by
    intro h
    simp [is_valid_policy_output, h]
  have harm3 : ∀ i, 50 ≤ output.length → firstPatternIdx (lowerL output) = some i →
      is_valid_policy_output output = (false, .codePattern i) := by
    intro i h50 hidx
    simp [is_valid_policy_output, Nat.not_lt.mpr h50, hidx]
  have harm4 : 50 ≤ output.length → firstPatternIdx (lowerL output) = none →
      3 ≤ kwCount CODE_KEYWORDS (lowerL output) →
      is_valid_policy_output output =
        (false, .tooManyCodeKeywords (kwCount CODE_KEYWORDS (lowerL output))) := by
    intro h50 hidx hck
    simp [is_valid_policy_output, Nat.not_lt.mpr h50, hidx, hck]
  have harm5 : 50 ≤ output.length → firstPatternIdx (lowerL output) = none →
      kwCount CODE_KEYWORDS (lowerL output) < 3 →
      kwCount POLICY_KEYWORDS (lowerL output) < 2 →
      is_valid_policy_output output = (false, .lacksPolicyContent) := by
    intro h50 hidx hck hpk
    simp [is_valid_policy_output, Nat.not_lt.mpr h50, hidx, Nat.not_le.mpr hck, hpk]
  have hiff : (is_valid_policy_output output).1 = true ↔
      50 ≤ output.length ∧ firstPatternIdx (lowerL output) = none ∧
        kwCount CODE_KEYWORDS (lowerL output) < 3 ∧
        2 ≤ kwCount POLICY_KEYWORDS (lowerL output) := by
    constructor
    · intro h
      by_cases h50 : output.length < 50
      · rw [harm2 h50] at h
        simp at h
      · rcases hidx : firstPatternIdx (lowerL output) with - | i
        · by_cases hck : 3 ≤ kwCount CODE_KEYWORDS (lowerL output)
          · rw [harm4 (by omega) hidx hck] at h
            simp at h
          · by_cases hpk : kwCount POLICY_KEYWORDS (lowerL output) < 2
            · rw [harm5 (by omega) hidx (by omega) hpk] at h
              simp at h
            · exact ⟨by omega, hidx.symm.trans hidx, by omega, by omega⟩
        · rw [harm3 i (by omega) hidx] at h
          simp at h
    · rintro ⟨h50, hidx, hck, hpk⟩
      simp [is_valid_policy_output, Nat.not_lt.mpr h50, hidx, Nat.not_le.mpr hck,
        Nat.not_lt.mpr hpk]
  refine ⟨hiff, harm2, harm3, harm4, harm5, ?_⟩
  intro p hp hsearch
  rcases hidx : firstPatternIdx (lowerL output) with - | i
  · exfalso
    rw [firstPatternIdx, List.findIdx?_eq_none_iff] at hidx
    have := hidx p hp
    rw [hsearch] at this
    exact Bool.false_ne_true this.symm
  · by_cases h50 : output.length < 50
    · rw [harm2 h50]
    · rw [harm3 i (by omega) hidx]

/-- Witness for C3: the empty string is rejected as too short, a long text
with a fenced code block is rejected with the code-pattern reason, and a
long policy text is accepted. -/
theorem c3_classify_characterization_witness :
    is_valid_policy_output (toL "") = (false, .tooShort) ∧
    is_valid_policy_output
        (toL "```python\nprint(1)\n```  padding padding padding padding padding") =
      (false, .codePattern 0) ∧
    (is_valid_policy_output
        (toL "The policy analysis shows fiscal impact on revenue and stakeholder groups.")).1
      = true :=
  ⟨(c3_classify_characterization (toL "")).2.1 (by decide),
   (c3_classify_characterization
      (toL "```python\nprint(1)\n```  padding padding padding padding padding")).2.2.1 0
      (by decide) (by decide),
   (c3_classify_characterization
      (toL "The policy analysis shows fiscal impact on revenue and stakeholder groups.")).1.mpr
      ⟨by decide, by decide, by decide, by decide⟩⟩

/-- Substring containment is monotone in the needle. -/
theorem containsCL_mono {n₁ n₂ h : List Char} (hn : n₁ <:+: n₂)
    (hc : containsCL n₂ h = true) : containsCL n₁ h = true :=
  (containsCL_iff n₁ h).mpr (hn.trans ((containsCL_iff n₂ h).mp hc))

/-! ### Claim C5 (corrected): decision-label extraction in `phase_results` -/

/-- C5 counterexample: the claim "an output containing REJECTED yields
final_decision = REJECTED" is false, because the APPROVE check runs first:
this concrete output contains "REJECTED" yet the decision is "APPROVED". -/
theorem c5_decision_counterexample :
    containsCL (toL "REJECTED")
        (upperL (toL "The motion to approve carried, so it was not rejected")) = true ∧
      extract_decision (toL "The motion to approve carried, so it was not rejected") =
        "APPROVED" := by
  constructor
  · decide
  · decide

/-- C5 (amended): the decision label is computed by a sequential
case-insensitive scan — APPROVED/APPROVE first, then REJECTED/REJECT, else
CONDITIONAL; in particular an output containing "REJECTED" but not
containing "APPROVE" yields "REJECTED". -/
theorem c5_decision_extraction (s : List Char) :
    ((containsCL (toL "APPROVED") (upperL s) = true ∨
        containsCL (toL "APPROVE") (upperL s) = true) →
      extract_decision s = "APPROVED") ∧
    (containsCL (toL "APPROVED") (upperL s) = false →
      containsCL (toL "APPROVE") (upperL s) = false →
      (containsCL (toL "REJECTED") (upperL s) = true ∨
        containsCL (toL "REJECT") (upperL s) = true) →
      extract_decision s = "REJECTED") ∧
    (containsCL (toL "APPROVED") (upperL s) = false →
      containsCL (toL "APPROVE") (upperL s) = false →
      containsCL (toL "REJECTED") (upperL s) = false →
      containsCL (toL "REJECT") (upperL s) = false →
      extract_decision s = "CONDITIONAL") ∧
    (containsCL (toL "REJECTED") (upperL s) = true →
      containsCL (toL "APPROVE") (upperL s) = false →
      extract_decision s = "REJECTED") := by
  refine ⟨?_, ?_, ?_, ?_⟩
  · intro h
    rcases h with h | h <;> simp [extract_decision, h]
  · intro h1 h2 h
    rcases h with h | h <;> simp [extract_decision, h1, h2, h]
  · intro h1 h2 h3 h4
    simp [extract_decision, h1, h2, h3, h4]
  · intro hrej happ
    have happd : containsCL (toL "APPROVED") (upperL s) = false := by
      by_contra hc
      rw [Bool.not_eq_false] at hc
      have := containsCL_mono
        (show toL "APPROVE" <:+: toL "APPROVED" by decide) hc
      rw [this] at happ
      exact absurd happ (by simp)
    simp [extract_decision, happd, happ, hrej]

/-- Witness for C5 at concrete announcement texts. -/
theorem c5_decision_extraction_witness :
    extract_decision (toL "Vote passed: APPROVED") = "APPROVED" ∧
    extract_decision (toL "The proposal is rejected") = "REJECTED" ∧
    extract_decision (toL "Further review needed") = "CONDITIONAL" :=
  ⟨(c5_decision_extraction (toL "Vote passed: APPROVED")).1 (Or.inl (by decide)),
   (c5_decision_extraction (toL "The proposal is rejected")).2.2.2 (by decide) (by decide),
   (c5_decision_extraction (toL "Further review needed")).2.2.1 (by decide) (by decide)
     (by decide) (by decide)⟩

/-! ### The debate loop (claims C1 and C7) -/

theorem debateAgentsLoop_ok (invoke : Oracle) (produce : ℕ → String → List Char) (r : ℕ)
    (experts : List String) (hok : ∀ a, invoke (.debateTask r a) = .ok (produce r a)) :
    debateAgentsLoop invoke r experts =
      (experts.flatMap (fun id => [.agent_started id, .agent_completed id]),
       .ok (experts.map (fun id => (id, produce r id)))) := by
  induction experts with
  | nil => rfl
  | cons id rest ih => simp [debateAgentsLoop, hok id, ih, Except.map]

theorem phase_debate_run (invoke : Oracle) (produce : ℕ → String → List Char)
    (experts : List String)
    (hok : ∀ r a, invoke (.debateTask r a) = .ok (produce r a)) :
    (phase_debate invoke experts).2 = Except.ok (expectedDebate produce experts) := by
  have hA1 := debateAgentsLoop_ok invoke produce 1 experts (fun a => hok 1 a)
  have hA2 := debateAgentsLoop_ok invoke produce 2 experts (fun a => hok 2 a)
  have hA3 := debateAgentsLoop_ok invoke produce 3 experts (fun a => hok 3 a)
  have hargs : ∀ r, (experts.map (fun id => (id, produce r id))).map
      (fun p => DebateEntry.mk r p.1 (titleName p.1) p.2) = roundBlock produce experts r := by
    intro r
    simp [roundBlock, List.map_map]
  have hvals : ∀ r, (experts.map (fun id => (id, produce r id))).map
      (fun p => p.2) = experts.map (produce r) := by
    intro r
    simp [List.map_map]
  have h2 : (debateRoundsLoop invoke experts 3 [1, 2, 3] [] 0).2 =
      Except.ok (expectedDebate produce experts) := by
    by_cases hs1 : 70 ≤ assess_consensus (experts.map (produce 1))
    · simp [debateRoundsLoop, hA1, hargs, hvals, hs1, expectedDebate]
    · by_cases hs2 : 70 ≤ assess_consensus (experts.map (produce 2))
      · simp [debateRoundsLoop, hA1, hA2, hargs, hvals, hs1, hs2, expectedDebate]
      · simp [debateRoundsLoop, hA1, hA2, hA3, hargs, hvals, hs1, hs2, expectedDebate,
          List.append_assoc]
  rcases hpair : debateRoundsLoop invoke experts 3 [1, 2, 3] [] 0 with ⟨evs, res⟩
  rw [hpair] at h2
  simp only at h2
  subst h2
  simp [phase_debate, hpair]

/-- C1: On a failure-free oracle, the debate loop runs at most 3 rounds and
exits early at round r < 3 exactly when that round's consensus level is
≥ 70 (and round 1 did not already reach it); on early exit
`consensus_reached` is recorded true and `rounds` records the exit round. -/
theorem c1_debate_loop_rounds (invoke : Oracle) (produce : ℕ → String → List Char)
    (experts : List String)
    (hok : ∀ r a, invoke (.debateTask r a) = .ok (produce r a)) :
    ∃ o : DebateOutcome, (phase_debate invoke experts).2 = Except.ok o ∧
      1 ≤ o.rounds ∧ o.rounds ≤ 3 ∧
      (o.consensus_reached = true ↔ o.rounds < 3) ∧
      (o.rounds = 1 ↔ 70 ≤ assess_consensus (experts.map (produce 1))) ∧
      (o.rounds = 2 ↔ (assess_consensus (experts.map (produce 1)) < 70 ∧
        70 ≤ assess_consensus (experts.map (produce 2)))) ∧
      (o.rounds = 3 ↔ (assess_consensus (experts.map (produce 1)) < 70 ∧
        assess_consensus (experts.map (produce 2)) < 70)) := by
  refine ⟨expectedDebate produce experts, phase_debate_run invoke produce experts hok, ?_⟩
  by_cases hs1 : 70 ≤ assess_consensus (experts.map (produce 1))
  · simp only [expectedDebate, if_pos hs1]
    exact ⟨le_refl 1, by omega, by simp, iff_of_true trivial hs1,
      iff_of_false (by simp) (fun h => absurd hs1 (not_le.mpr h.1)),
      iff_of_false (by simp) (fun h => absurd hs1 (not_le.mpr h.1))⟩
  · by_cases hs2 : 70 ≤ assess_consensus (experts.map (produce 2))
    · simp only [expectedDebate, if_neg hs1, if_pos hs2]
      exact ⟨by omega, by omega, by simp, iff_of_false (by simp) hs1,
        iff_of_true trivial ⟨not_le.mp hs1, hs2⟩,
        iff_of_false (by simp) (fun h => absurd h.2 (not_lt.mpr hs2))⟩
    · simp only [expectedDebate, if_neg hs1, if_neg hs2]
      exact ⟨by omega, le_refl 3, by simp, iff_of_false (by simp) hs1,
        iff_of_false (by simp) (fun h => hs2 h.2),
        iff_of_true trivial ⟨not_le.mp hs1, not_le.mp hs2⟩⟩

/-- Witness for C1: a concrete failure-free oracle whose round-1 arguments
do not reach consensus but whose round-2 arguments do. -/
theorem c1_debate_loop_rounds_witness :
    ∃ o : DebateOutcome,
      (phase_debate
          (fun k => match k with
            | .debateTask r _ => .ok (if r = 1 then toL "however no" else toL "we agree")
            | _ => .ok [])
          ["economic", "social"]).2 = Except.ok o ∧
      1 ≤ o.rounds ∧ o.rounds ≤ 3 ∧
      (o.consensus_reached = true ↔ o.rounds < 3) ∧
      (o.rounds = 1 ↔ 70 ≤ assess_consensus
        (["economic", "social"].map
          (fun _ => if (1 : ℕ) = 1 then toL "however no" else toL "we agree"))) ∧
      (o.rounds = 2 ↔ (assess_consensus
          (["economic", "social"].map
            (fun _ => if (1 : ℕ) = 1 then toL "however no" else toL "we agree")) < 70 ∧
        70 ≤ assess_consensus
          (["economic", "social"].map
            (fun _ => if (2 : ℕ) = 1 then toL "however no" else toL "we agree")))) ∧
      (o.rounds = 3 ↔ (assess_consensus
          (["economic", "social"].map
            (fun _ => if (1 : ℕ) = 1 then toL "however no" else toL "we agree")) < 70 ∧
        assess_consensus
          (["economic", "social"].map
            (fun _ => if (2 : ℕ) = 1 then toL "however no" else toL "we agree")) < 70)) :=
  c1_debate_loop_rounds
    (fun k => match k with
      | .debateTask r _ => .ok (if r = 1 then toL "however no" else toL "we agree")
      | _ => .ok [])
    (fun r _ => if r = 1 then toL "however no" else toL "we agree")
    ["economic", "social"] (fun _ _ => rfl)

/-- The (round, agent) pairs of one round block: agent order, fixed round. -/
theorem roundBlock_pairs (produce : ℕ → String → List Char) (experts : List String) (r : ℕ) :
    (roundBlock produce experts r).map (fun en => (en.round, en.agent_id)) =
      experts.map (fun id => (r, id)) := by
  simp [roundBlock, List.map_map]

/-- The (round, agent) pairs of distinct rounds over duplicate-free experts
are duplicate-free. -/
theorem roundBlocks_pairs_nodup (produce : ℕ → String → List Char) (experts : List String)
    (hnd : experts.Nodup) (rs : List ℕ) (hr : rs.Nodup) :
    ((rs.flatMap (roundBlock produce experts)).map
      (fun en => (en.round, en.agent_id))).Nodup := by
  induction rs with
  | nil => simp
  | cons r rest ih =>
    rw [List.flatMap_cons, List.map_append, List.nodup_append]
    rcases List.nodup_cons.mp hr with ⟨hrmem, hrest⟩
    refine ⟨?_, ih hrest, ?_⟩
    · rw [roundBlock_pairs]
      exact hnd.map (fun a b hab => (Prod.mk.injEq _ _ _ _).mp hab |>.2)
    · intro x hx hx2
      rw [roundBlock_pairs, List.mem_map] at hx
      obtain ⟨id, -, rfl⟩ := hx
      rw [List.mem_map] at hx2
      obtain ⟨en, hen, heq⟩ := hx2
      rw [List.mem_flatMap] at hen
      obtain ⟨r2, hr2, hen2⟩ := hen
      rw [roundBlock, List.mem_map] at hen2
      obtain ⟨id2, -, rfl⟩ := hen2
      have : r = r2 := by
        have := congrArg Prod.fst heq
        simpa using this.symm
      exact hrmem (this ▸ hr2)

/-- C7 (together with the two run lemmas above): on a failure-free oracle
the debate history is exactly the concatenation of the per-round blocks in
round order with agents in invocation order inside each round; its length
is rounds × experts; the (round, agent) pairs never repeat; the history
after each completed round is a prefix of the final history (append-only),
and each completed round extends it by exactly the number of experts. -/
theorem c7_debate_history_append_only (invoke : Oracle)
    (produce : ℕ → String → List Char) (experts : List String)
    (hok : ∀ r a, invoke (.debateTask r a) = .ok (produce r a))
    (hnd : experts.Nodup) :
    ∃ o : DebateOutcome, (phase_debate invoke experts).2 = Except.ok o ∧
      o.history = (List.range' 1 o.rounds).flatMap (roundBlock produce experts) ∧
      o.history.length = o.rounds * experts.length ∧
      ((o.history.map (fun en => (en.round, en.agent_id))).Nodup) ∧
      (∀ r, r ≤ o.rounds →
        ((List.range' 1 r).flatMap (roundBlock produce experts)) <+: o.history) ∧
      (∀ r, ((List.range' 1 (r + 1)).flatMap (roundBlock produce experts)).length =
        ((List.range' 1 r).flatMap (roundBlock produce experts)).length +
          experts.length) := by
  have hblen : ∀ r, (roundBlock produce experts r).length = experts.length := by
    intro r
    simp [roundBlock]
  have hgrow : ∀ r, ((List.range' 1 (r + 1)).flatMap (roundBlock produce experts)).length =
      ((List.range' 1 r).flatMap (roundBlock produce experts)).length + experts.length := by
    intro r
    rw [List.range'_concat, List.flatMap_append, List.length_append]
    simp [hblen]
  have hr1 : List.range' 1 1 = [1] := by decide
  have hr2 : List.range' 1 2 = [1, 2] := by decide
  have hr3 : List.range' 1 3 = [1, 2, 3] := by decide
  by_cases hs1 : 70 ≤ assess_consensus (experts.map (produce 1))
  · refine ⟨⟨roundBlock produce experts 1, 1, true⟩, ?_, ?_, ?_, ?_, ?_, hgrow⟩
    · rw [phase_debate_run invoke produce experts hok]
      simp [expectedDebate, hs1]
    · simp [hr1]
    · simp [hblen]
    · simpa [hr1] using roundBlocks_pairs_nodup produce experts hnd [1] (by simp)
    · intro r hr
      interval_cases r
      · simp
      · simp [hr1]
  · by_cases hs2 : 70 ≤ assess_consensus (experts.map (produce 2))
    · refine ⟨⟨roundBlock produce experts 1 ++ roundBlock produce experts 2, 2, true⟩,
        ?_, ?_, ?_, ?_, ?_, hgrow⟩
      · rw [phase_debate_run invoke produce experts hok]
        simp [expectedDebate, hs1, hs2]
      · simp [hr2]
      · simp [hblen, Nat.two_mul]
      · simpa [hr2] using roundBlocks_pairs_nodup produce experts hnd [1, 2] (by simp)
      · intro r hr
        interval_cases r
        · simp
        · simp [hr1]
        · simp [hr2]
    · refine ⟨⟨roundBlock produce experts 1 ++ roundBlock produce experts 2 ++
        roundBlock produce experts 3, 3, false⟩, ?_, ?_, ?_, ?_, ?_, hgrow⟩
      · rw [phase_debate_run invoke produce experts hok]
        simp [expectedDebate, hs1, hs2]
      · simp [hr3, List.append_assoc]
      · simp [hblen]
        ring
      · simpa [hr3, List.append_assoc] using
          roundBlocks_pairs_nodup produce experts hnd [1, 2, 3] (by simp)
      · intro r hr
        interval_cases r
        · simp
        · simp [hr1, List.append_assoc]
        · simp [hr2, List.append_assoc]
        · simp [hr3, List.append_assoc]

/-- Witness for C7 at a concrete failure-free oracle and duplicate-free
expert list. -/
theorem c7_debate_history_append_only_witness :
    ∃ o : DebateOutcome,
      (phase_debate
          (fun k => match k with
            | .debateTask _ _ => .ok (toL "i strongly agree")
            | _ => .ok [])
          ["economic", "legal"]).2 = Except.ok o ∧
      o.history = (List.range' 1 o.rounds).flatMap
        (roundBlock (fun _ _ => toL "i strongly agree") ["economic", "legal"]) ∧
      o.history.length = o.rounds * (["economic", "legal"] : List String).length ∧
      ((o.history.map (fun en => (en.round, en.agent_id))).Nodup) ∧
      (∀ r, r ≤ o.rounds →
        ((List.range' 1 r).flatMap
          (roundBlock (fun _ _ => toL "i strongly agree") ["economic", "legal"])) <+:
            o.history) ∧
      (∀ r, ((List.range' 1 (r + 1)).flatMap
          (roundBlock (fun _ _ => toL "i strongly agree") ["economic", "legal"])).length =
        ((List.range' 1 r).flatMap
          (roundBlock (fun _ _ => toL "i strongly agree") ["economic", "legal"])).length +
          (["economic", "legal"] : List String).length) :=
  c7_debate_history_append_only
    (fun k => match k with
      | .debateTask _ _ => .ok (toL "i strongly agree")
      | _ => .ok [])
    (fun _ _ => toL "i strongly agree") ["economic", "legal"] (fun _ _ => rfl) (by decide)

/-! ### Claim C4 (corrected): what gets recorded per (phase, agent) -/

theorem votingLoop_records (invoke : Oracle) (experts : List String) :
    ∀ vs, (votingLoop invoke experts).2 = Except.ok vs →
      vs.map Prod.fst = experts ∧
      (∀ id raw, invoke (.voteTask id) = .ok raw → id ∈ experts →
        vs.lookup id = some raw) := by
  induction experts with
  | nil =>
    intro vs h
    simp only [votingLoop] at h
    cases h
    exact ⟨rfl, fun id raw _ h2 => absurd h2 (by simp)⟩
  | cons id rest ih =>
    intro vs h
    rcases hi : invoke (.voteTask id) with e | raw
    · simp [votingLoop, hi] at h
    · rcases hrest : votingLoop invoke rest with ⟨evs, res⟩
      rcases res with e2 | others
      · simp [votingLoop, hi, hrest, Except.map] at h
      · have hres : (votingLoop invoke rest).2 = Except.ok others := by rw [hrest]
        obtain ⟨hkeys, hlook⟩ := ih others hres
        simp only [votingLoop, hi, hrest, Except.map] at h
        cases h
        refine ⟨by simp [hkeys], ?_⟩
        intro id2 raw2 hinv hmem
        by_cases hid : id2 = id
        · subst hid
          rw [hi] at hinv
          cases hinv
          simp [List.lookup]
        · rcases List.mem_cons.mp hmem with heq | hmem2
          · exact absurd heq hid
          · have : (id2 == id) = false := beq_false_of_ne hid
            simp [List.lookup, this]
            exact hlook id2 raw2 hinv hmem2

theorem researchLoop_records (invoke : Oracle) (topic : List Char) (experts : List String) :
    ∀ rs, (researchLoop invoke topic experts).2 = Except.ok rs →
      rs.map Prod.fst = experts ∧
      (∀ id raw, invoke (.researchTask id) = .ok raw → id ∈ experts →
        rs.lookup id = some (validateRecord raw (titleName id) topic)) := by
  induction experts with
  | nil =>
    intro rs h
    simp only [researchLoop] at h
    cases h
    exact ⟨rfl, fun id raw _ h2 => absurd h2 (by simp)⟩
  | cons id rest ih =>
    intro rs h
    rcases hi : invoke (.researchTask id) with e | raw
    · simp [researchLoop, hi] at h
    · rcases hrest : researchLoop invoke topic rest with ⟨evs, res⟩
      rcases res with e2 | others
      · simp [researchLoop, hi, hrest, Except.map] at h
      · have hres : (researchLoop invoke topic rest).2 = Except.ok others := by rw [hrest]
        obtain ⟨hkeys, hlook⟩ := ih others hres
        simp only [researchLoop, hi, hrest, Except.map] at h
        cases h
        refine ⟨by simp [hkeys], ?_⟩
        intro id2 raw2 hinv hmem
        by_cases hid : id2 = id
        · subst hid
          rw [hi] at hinv
          cases hinv
          simp [List.lookup]
        · rcases List.mem_cons.mp hmem with heq | hmem2
          · exact absurd heq hid
          · have : (id2 == id) = false := beq_false_of_ne hid
            simp [List.lookup, this]
            exact hlook id2 raw2 hinv hmem2

/-- C4 (amended): per (phase, agent) exactly one outcome is recorded and the
pairing is never duplicated; the problem-statement and research phases
record the validated text (cleanup on acceptance, deterministic fallback on
rejection), while the voting phase records the raw task output without
validation. -/
theorem c4_recording_per_phase_agent (invoke : Oracle) (topic : List Char)
    (experts : List String) (hnd : experts.Nodup) :
    (∀ raw, invoke .problemTask = .ok raw →
      (phase_problem_statement invoke topic).2 =
        Except.ok (validateRecord raw (toL "Problem Statement Expert") topic)) ∧
    (∀ rs, (researchLoop invoke topic experts).2 = Except.ok rs →
      rs.map Prod.fst = experts ∧ (rs.map Prod.fst).Nodup ∧
      (∀ id raw, invoke (.researchTask id) = .ok raw → id ∈ experts →
        rs.lookup id = some (validateRecord raw (titleName id) topic))) ∧
    (∀ vs, (votingLoop invoke experts).2 = Except.ok vs →
      vs.map Prod.fst = experts ∧ (vs.map Prod.fst).Nodup ∧
      (∀ id raw, invoke (.voteTask id) = .ok raw → id ∈ experts →
        vs.lookup id = some raw)) := by
  refine ⟨?_, ?_, ?_⟩
  · intro raw hraw
    simp [phase_problem_statement, hraw]
  · intro rs h
    obtain ⟨hkeys, hlook⟩ := researchLoop_records invoke topic experts rs h
    exact ⟨hkeys, hkeys ▸ hnd, hlook⟩
  · intro vs h
    obtain ⟨hkeys, hlook⟩ := votingLoop_records invoke experts vs h
    exact ⟨hkeys, hkeys ▸ hnd, hlook⟩

/-- Witness for C4 (amended) at a concrete oracle and expert list. -/
theorem c4_recording_per_phase_agent_witness :
    (∀ raw, (fun (_ : TaskKey) => (Except.ok (toL "x") : Except String (List Char))) TaskKey.problemTask = .ok raw →
      (phase_problem_statement (fun _ => Except.ok (toL "x")) (toL "T")).2 =
        Except.ok (validateRecord raw (toL "Problem Statement Expert") (toL "T"))) ∧
    (∀ rs, (researchLoop (fun _ => Except.ok (toL "x")) (toL "T") ["economic"]).2 =
        Except.ok rs →
      rs.map Prod.fst = ["economic"] ∧ (rs.map Prod.fst).Nodup ∧
      (∀ id raw, (fun (_ : TaskKey) => (Except.ok (toL "x") : Except String (List Char)))
          (TaskKey.researchTask id) = .ok raw → id ∈ ["economic"] →
        rs.lookup id = some (validateRecord raw (titleName id) (toL "T")))) ∧
    (∀ vs, (votingLoop (fun _ => Except.ok (toL "x")) ["economic"]).2 = Except.ok vs →
      vs.map Prod.fst = ["economic"] ∧ (vs.map Prod.fst).Nodup ∧
      (∀ id raw, (fun (_ : TaskKey) => (Except.ok (toL "x") : Except String (List Char)))
          (TaskKey.voteTask id) = .ok raw → id ∈ ["economic"] →
        vs.lookup id = some raw)) :=
  c4_recording_per_phase_agent (fun _ => Except.ok (toL "x")) (toL "T") ["economic"]
    (by decide)

/-- C4 counterexample: in the voting phase the raw output is recorded even
when the validator rejects it — the claim that every recorded outcome is
validated text (validator-accepted or fallback-replaced) is false.  Here
every vote is the single character "x": it is recorded verbatim for the
agent "economic" although the validator rejects it. -/
theorem c4_unvalidated_vote_counterexample :
    ∃ vs, (votingLoop (fun _ => Except.ok (toL "x")) DOMAIN_EXPERTS).2 = Except.ok vs ∧
      vs.lookup "economic" = some (toL "x") ∧
      (is_valid_policy_output (toL "x")).1 = false :=
  ⟨DOMAIN_EXPERTS.map (fun id => (id, toL "x")), by decide, by decide, by decide⟩

/-! ### Claim C6: failure semantics of `run_deliberation` -/

theorem votingLoop_no_error_event (invoke : Oracle) (experts : List String) (e : String) :
    Event.deliberation_error e ∉ (votingLoop invoke experts).1 := by
  induction experts with
  | nil => simp [votingLoop]
  | cons id rest ih =>
    rcases hi : invoke (.voteTask id) with er | raw
    · simp [votingLoop, hi]
    · rcases hrest : votingLoop invoke rest with ⟨evs, res⟩
      rw [hrest] at ih
      have hv : (votingLoop invoke (id :: rest)).1 =
          [.agent_started id, .vote_cast id, .agent_completed id] ++ evs := by
        simp [votingLoop, hi, hrest]
      rw [hv]
      intro hmem
      rcases List.mem_append.mp hmem with h1 | h2
      · simp at h1
      · exact ih h2

theorem researchLoop_no_error_event (invoke : Oracle) (topic : List Char)
    (experts : List String) (e : String) :
    Event.deliberation_error e ∉ (researchLoop invoke topic experts).1 := by
  induction experts with
  | nil => simp [researchLoop]
  | cons id rest ih =>
    rcases hi : invoke (.researchTask id) with er | raw
    · simp [researchLoop, hi]
    · rcases hrest : researchLoop invoke topic rest with ⟨evs, res⟩
      rw [hrest] at ih
      have hv : (researchLoop invoke topic (id :: rest)).1 =
          [.agent_started id, .agent_completed id] ++ evs := by
        simp [researchLoop, hi, hrest]
      rw [hv]
      intro hmem
      rcases List.mem_append.mp hmem with h1 | h2
      · simp at h1
      · exact ih h2

theorem debateAgentsLoop_no_error_event (invoke : Oracle) (r : ℕ)
    (experts : List String) (e : String) :
    Event.deliberation_error e ∉ (debateAgentsLoop invoke r experts).1 := by
  induction experts with
  | nil => simp [debateAgentsLoop]
  | cons id rest ih =>
    rcases hi : invoke (.debateTask r id) with er | raw
    · simp [debateAgentsLoop, hi]
    · rcases hrest : debateAgentsLoop invoke r rest with ⟨evs, res⟩
      rw [hrest] at ih
      have hv : (debateAgentsLoop invoke r (id :: rest)).1 =
          [.agent_started id, .agent_completed id] ++ evs := by
        simp [debateAgentsLoop, hi, hrest]
      rw [hv]
      intro hmem
      rcases List.mem_append.mp hmem with h1 | h2
      · simp at h1
      · exact ih h2

theorem debateRoundsLoop_no_error_event (invoke : Oracle) (experts : List String)
    (maxRounds : ℕ) (rounds : List ℕ) (history : List DebateEntry) (lastRound : ℕ)
    (e : String) :
    Event.deliberation_error e ∉
      (debateRoundsLoop invoke experts maxRounds rounds history lastRound).1 := by
  induction rounds generalizing history lastRound with
  | nil => simp [debateRoundsLoop]
  | cons r rest ih =>
    rcases hA : debateAgentsLoop invoke r experts with ⟨evs, res⟩
    have hAn := debateAgentsLoop_no_error_event invoke r experts e
    rw [hA] at hAn
    rcases res with er | roundArgs
    · have hv : (debateRoundsLoop invoke experts maxRounds (r :: rest) history lastRound).1 =
          [.debate_round_started r] ++ evs := by
        simp [debateRoundsLoop, hA]
      rw [hv]
      intro hmem
      rcases List.mem_append.mp hmem with h1 | h2
      · simp at h1
      · exact hAn h2
    · by_cases hlt : r < maxRounds
      · by_cases hcons : 70 ≤ assess_consensus (roundArgs.map (fun p => p.2))
        · have hv : (debateRoundsLoop invoke experts maxRounds (r :: rest)
              history lastRound).1 =
              [.debate_round_started r] ++ evs ++
                [.consensus_check r (assess_consensus (roundArgs.map (fun p => p.2))),
                 .consensus_reached r] := by
            simp [debateRoundsLoop, hA, hlt, hcons]
          rw [hv]
          intro hmem
          rcases List.mem_append.mp hmem with h1 | h2
          · rcases List.mem_append.mp h1 with h3 | h4
            · simp at h3
            · exact hAn h4
          · simp at h2
        · rcases hrec : debateRoundsLoop invoke experts maxRounds rest
            (history ++ roundArgs.map (fun p => DebateEntry.mk r p.1 (titleName p.1) p.2)) r
            with ⟨evs2, res2⟩
          have ihr := ih (history ++
            roundArgs.map (fun p => DebateEntry.mk r p.1 (titleName p.1) p.2)) r
          rw [hrec] at ihr
          have hv : (debateRoundsLoop invoke experts maxRounds (r :: rest)
              history lastRound).1 =
              [.debate_round_started r] ++ evs ++
                [.consensus_check r (assess_consensus (roundArgs.map (fun p => p.2)))] ++
                evs2 := by
            simp [debateRoundsLoop, hA, hlt, hcons, hrec]
          rw [hv]
          intro hmem
          rcases List.mem_append.mp hmem with h1 | h2
          · rcases List.mem_append.mp h1 with h3 | h4
            · rcases List.mem_append.mp h3 with h5 | h6
              · simp at h5
              · exact hAn h6
            · simp at h4
          · exact ihr h2
      · rcases hrec : debateRoundsLoop invoke experts maxRounds rest
          (history ++ roundArgs.map (fun p => DebateEntry.mk r p.1 (titleName p.1) p.2)) r
          with ⟨evs2, res2⟩
        have ihr := ih (history ++
          roundArgs.map (fun p => DebateEntry.mk r p.1 (titleName p.1) p.2)) r
        rw [hrec] at ihr
        have hv : (debateRoundsLoop invoke experts maxRounds (r :: rest)
            history lastRound).1 =
            [.debate_round_started r] ++ evs ++ evs2 := by
          simp [debateRoundsLoop, hA, hlt, hrec]
        rw [hv]
        intro hmem
        rcases List.mem_append.mp hmem with h1 | h2
        · rcases List.mem_append.mp h1 with h3 | h4
          · simp at h3
          · exact hAn h4
        · exact ihr h2

theorem phase_problem_statement_no_error_event (invoke : Oracle) (topic : List Char)
    (e : String) :
    Event.deliberation_error e ∉ (phase_problem_statement invoke topic).1 := by
  rcases hi : invoke .problemTask with er | raw <;> simp [phase_problem_statement, hi]

theorem phase_research_no_error_event (invoke : Oracle) (topic : List Char) (e : String) :
    Event.deliberation_error e ∉ (phase_research invoke topic).1 := by
  have h := researchLoop_no_error_event invoke topic RESEARCH_ORDER e
  rcases hp : researchLoop invoke topic RESEARCH_ORDER with ⟨evs, res⟩
  rw [hp] at h
  rcases res with er | rs <;> simp [phase_research, hp] <;> intro hmem <;> exact h hmem

theorem phase_debate_no_error_event (invoke : Oracle) (experts : List String) (e : String) :
    Event.deliberation_error e ∉ (phase_debate invoke experts).1 := by
  have h := debateRoundsLoop_no_error_event invoke experts 3 [1, 2, 3] [] 0 e
  rcases hp : debateRoundsLoop invoke experts 3 [1, 2, 3] [] 0 with ⟨evs, res⟩
  rw [hp] at h
  rcases res with er | o <;> simp [phase_debate, hp] <;> intro hmem <;> exact h hmem

theorem phase_voting_no_error_event (invoke : Oracle) (experts : List String) (e : String) :
    Event.deliberation_error e ∉ (phase_voting invoke experts).1 := by
  have h := votingLoop_no_error_event invoke experts e
  rcases hp : votingLoop invoke experts with ⟨evs, res⟩
  rw [hp] at h
  rcases res with er | vs <;> simp [phase_voting, hp] <;> intro hmem <;> exact h hmem

theorem phase_results_no_error_event (invoke : Oracle) (e : String) :
    Event.deliberation_error e ∉ (phase_results invoke).1 := by
  rcases hi : invoke .resultsTask with er | raw <;> simp [phase_results, hi]

theorem init_events_no_error_event (e : String) :
    Event.deliberation_error e ∉
      ([Event.phase_started 1] ++ AGENT_IDS.map Event.agent_created ++
        [Event.phase_completed 1]) := by
  intro hmem
  rcases List.mem_append.mp hmem with h1 | h2
  · rcases List.mem_append.mp h1 with h3 | h4
    · simp at h3
    · rw [List.mem_map] at h4
      obtain ⟨id, -, heq⟩ := h4
      cases heq
  · simp at h2

theorem votingLoop_error_source (invoke : Oracle) (experts : List String) (e : String)
    (h : (votingLoop invoke experts).2 = Except.error e) :
    ∃ id ∈ experts, invoke (.voteTask id) = Except.error e := by
  induction experts with
  | nil => simp [votingLoop] at h
  | cons id rest ih =>
    rcases hi : invoke (.voteTask id) with er | raw
    · simp only [votingLoop, hi] at h
      cases h
      exact ⟨id, by simp, hi⟩
    · rcases hrest : votingLoop invoke rest with ⟨evs, res⟩
      rcases res with er2 | vs
      · obtain ⟨id2, hmem, hinv⟩ := ih (by
          simp only [votingLoop, hi, hrest, Except.map] at h
          rw [hrest]
          cases h
          rfl)
        exact ⟨id2, by simp [hmem], hinv⟩
      · simp [votingLoop, hi, hrest, Except.map] at h

theorem researchLoop_error_source (invoke : Oracle) (topic : List Char)
    (experts : List String) (e : String)
    (h : (researchLoop invoke topic experts).2 = Except.error e) :
    ∃ id ∈ experts, invoke (.researchTask id) = Except.error e := by
  induction experts with
  | nil => simp [researchLoop] at h
  | cons id rest ih =>
    rcases hi : invoke (.researchTask id) with er | raw
    · simp only [researchLoop, hi] at h
      cases h
      exact ⟨id, by simp, hi⟩
    · rcases hrest : researchLoop invoke topic rest with ⟨evs, res⟩
      rcases res with er2 | rs
      · obtain ⟨id2, hmem, hinv⟩ := ih (by
          simp only [researchLoop, hi, hrest, Except.map] at h
          rw [hrest]
          cases h
          rfl)
        exact ⟨id2, by simp [hmem], hinv⟩
      · simp [researchLoop, hi, hrest, Except.map] at h

theorem debateAgentsLoop_error_source (invoke : Oracle) (r : ℕ) (experts : List String)
    (e : String) (h : (debateAgentsLoop invoke r experts).2 = Except.error e) :
    ∃ id ∈ experts, invoke (.debateTask r id) = Except.error e := by
  induction experts with
  | nil => simp [debateAgentsLoop] at h
  | cons id rest ih =>
    rcases hi : invoke (.debateTask r id) with er | raw
    · simp only [debateAgentsLoop, hi] at h
      cases h
      exact ⟨id, by simp, hi⟩
    · rcases hrest : debateAgentsLoop invoke r rest with ⟨evs, res⟩
      rcases res with er2 | args
      · obtain ⟨id2, hmem, hinv⟩ := ih (by
          simp only [debateAgentsLoop, hi, hrest, Except.map] at h
          rw [hrest]
          cases h
          rfl)
        exact ⟨id2, by simp [hmem], hinv⟩
      · simp [debateAgentsLoop, hi, hrest, Except.map] at h

theorem debateRoundsLoop_error_source (invoke : Oracle) (experts : List String)
    (maxRounds : ℕ) (rounds : List ℕ) (history : List DebateEntry) (lastRound : ℕ)
    (e : String)
    (h : (debateRoundsLoop invoke experts maxRounds rounds history lastRound).2 =
      Except.error e) :
    ∃ r, ∃ id ∈ experts, invoke (.debateTask r id) = Except.error e := by
  induction rounds generalizing history lastRound with
  | nil => simp [debateRoundsLoop] at h
  | cons r rest ih =>
    rcases hA : debateAgentsLoop invoke r experts with ⟨evs, res⟩
    rcases res with er | roundArgs
    · simp only [debateRoundsLoop, hA] at h
      cases h
      obtain ⟨id, hmem, hinv⟩ := debateAgentsLoop_error_source invoke r experts e
        (by rw [hA])
      exact ⟨r, id, hmem, hinv⟩
    · by_cases hlt : r < maxRounds
      · by_cases hcons : 70 ≤ assess_consensus (roundArgs.map (fun p => p.2))
        · simp [debateRoundsLoop, hA, hlt, hcons] at h
        · rcases hrec : debateRoundsLoop invoke experts maxRounds rest
            (history ++ roundArgs.map (fun p => DebateEntry.mk r p.1 (titleName p.1) p.2)) r
            with ⟨evs2, res2⟩
          have h2 : res2 = Except.error e := by
            simp only [debateRoundsLoop, hA, hlt, hcons, hrec] at h
            simpa using h
          exact ih _ r (by rw [hrec, h2])
      · rcases hrec : debateRoundsLoop invoke experts maxRounds rest
          (history ++ roundArgs.map (fun p => DebateEntry.mk r p.1 (titleName p.1) p.2)) r
          with ⟨evs2, res2⟩
        have h2 : res2 = Except.error e := by
          simp only [debateRoundsLoop, hA, hlt, hrec] at h
          simpa using h
        exact ih _ r (by rw [hrec, h2])

theorem phase_problem_statement_error_source (invoke : Oracle) (topic : List Char)
    (e : String) (h : (phase_problem_statement invoke topic).2 = Except.error e) :
    invoke .problemTask = Except.error e := by
  rcases hi : invoke .problemTask with er | raw <;> simp [phase_problem_statement, hi] at h
  rw [h]

theorem phase_research_error_source (invoke : Oracle) (topic : List Char) (e : String)
    (h : (phase_research invoke topic).2 = Except.error e) :
    ∃ id ∈ RESEARCH_ORDER, invoke (.researchTask id) = Except.error e := by
  rcases hp : researchLoop invoke topic RESEARCH_ORDER with ⟨evs, res⟩
  rcases res with er | rs <;> simp only [phase_research, hp] at h
  · cases h
    exact researchLoop_error_source invoke topic RESEARCH_ORDER e (by rw [hp])
  · cases h

theorem phase_debate_error_source (invoke : Oracle) (experts : List String) (e : String)
    (h : (phase_debate invoke experts).2 = Except.error e) :
    ∃ r, ∃ id ∈ experts, invoke (.debateTask r id) = Except.error e := by
  rcases hp : debateRoundsLoop invoke experts 3 [1, 2, 3] [] 0 with ⟨evs, res⟩
  rcases res with er | o <;> simp only [phase_debate, hp] at h
  · cases h
    exact debateRoundsLoop_error_source invoke experts 3 [1, 2, 3] [] 0 e (by rw [hp])
  · cases h

theorem phase_voting_error_source (invoke : Oracle) (experts : List String) (e : String)
    (h : (phase_voting invoke experts).2 = Except.error e) :
    ∃ id ∈ experts, invoke (.voteTask id) = Except.error e := by
  rcases hp : votingLoop invoke experts with ⟨evs, res⟩
  rcases res with er | vs <;> simp only [phase_voting, hp] at h
  · cases h
    exact votingLoop_error_source invoke experts e (by rw [hp])
  · cases h

theorem phase_results_error_source (invoke : Oracle) (e : String)
    (h : (phase_results invoke).2 = Except.error e) :
    invoke .resultsTask = Except.error e := by
  rcases hi : invoke .resultsTask with er | raw <;> simp [phase_results, hi] at h
  rw [h]

theorem votingLoop_total (invoke : Oracle) (experts : List String)
    (htot : ∀ k, ∃ v, invoke k = Except.ok v) :
    ∃ vs, (votingLoop invoke experts).2 = Except.ok vs := by
  induction experts with
  | nil => exact ⟨[], rfl⟩
  | cons id rest ih =>
    obtain ⟨raw, hraw⟩ := htot (.voteTask id)
    obtain ⟨vs, hvs⟩ := ih
    rcases hrest : votingLoop invoke rest with ⟨evs, res⟩
    rw [hrest] at hvs
    simp only at hvs
    subst hvs
    exact ⟨(id, raw) :: vs, by simp [votingLoop, hraw, hrest, Except.map]⟩

theorem researchLoop_total (invoke : Oracle) (topic : List Char) (experts : List String)
    (htot : ∀ k, ∃ v, invoke k = Except.ok v) :
    ∃ rs, (researchLoop invoke topic experts).2 = Except.ok rs := by
  induction experts with
  | nil => exact ⟨[], rfl⟩
  | cons id rest ih =>
    obtain ⟨raw, hraw⟩ := htot (.researchTask id)
    obtain ⟨rs, hrs⟩ := ih
    rcases hrest : researchLoop invoke topic rest with ⟨evs, res⟩
    rw [hrest] at hrs
    simp only at hrs
    subst hrs
    exact ⟨(id, validateRecord raw (titleName id) topic) :: rs,
      by simp [researchLoop, hraw, hrest, Except.map]⟩

theorem phase_debate_total (invoke : Oracle) (experts : List String)
    (htot : ∀ k, ∃ v, invoke k = Except.ok v) :
    ∃ o, (phase_debate invoke experts).2 = Except.ok o := by
  classical
  have hok : ∀ r a, invoke (.debateTask r a) =
      Except.ok ((htot (.debateTask r a)).choose) := fun r a =>
    (htot (.debateTask r a)).choose_spec
  exact ⟨_, phase_debate_run invoke (fun r a => (htot (.debateTask r a)).choose)
    experts hok⟩

theorem run_deliberation_total (invoke : Oracle) (topic : List Char)
    (htot : ∀ k, ∃ v, invoke k = Except.ok v) :
    ∃ d, (run_deliberation invoke topic).2.1 = RunOutcome.successRun d := by
  obtain ⟨praw, hpraw⟩ := htot .problemTask
  obtain ⟨rs, hrs⟩ := researchLoop_total invoke topic RESEARCH_ORDER htot
  obtain ⟨o, ho⟩ := phase_debate_total invoke DOMAIN_EXPERTS htot
  obtain ⟨vs, hvs⟩ := votingLoop_total invoke DOMAIN_EXPERTS htot
  obtain ⟨araw, haraw⟩ := htot .resultsTask
  have h2 : (phase_problem_statement invoke topic).2 =
      Except.ok (validateRecord praw (toL "Problem Statement Expert") topic) := by
    simp [phase_problem_statement, hpraw]
  have h3 : (phase_research invoke topic).2 = Except.ok rs := by
    rcases hp : researchLoop invoke topic RESEARCH_ORDER with ⟨evs, res⟩
    rw [hp] at hrs
    simp only at hrs
    subst hrs
    simp [phase_research, hp]
  have h5 : (phase_voting invoke DOMAIN_EXPERTS).2 = Except.ok vs := by
    rcases hp : votingLoop invoke DOMAIN_EXPERTS with ⟨evs, res⟩
    rw [hp] at hvs
    simp only at hvs
    subst hvs
    simp [phase_voting, hp]
  have h6 : (phase_results invoke).2 = Except.ok (araw, extract_decision araw) := by
    simp [phase_results, haraw]
  refine ⟨extract_decision araw, ?_⟩
  rcases hp2 : phase_problem_statement invoke topic with ⟨e2, r2⟩
  rw [hp2] at h2
  simp only at h2
  subst h2
  rcases hp3 : phase_research invoke topic with ⟨e3, r3⟩
  rw [hp3] at h3
  simp only at h3
  subst h3
  rcases hp4 : phase_debate invoke DOMAIN_EXPERTS with ⟨e4, r4⟩
  rw [hp4] at ho
  simp only at ho
  subst ho
  rcases hp5 : phase_voting invoke DOMAIN_EXPERTS with ⟨e5, r5⟩
  rw [hp5] at h5
  simp only at h5
  subst h5
  rcases hp6 : phase_results invoke with ⟨e6, r6⟩
  rw [hp6] at h6
  simp only at h6
  subst h6
  simp [run_deliberation, hp2, hp3, hp4, hp5, hp6]

theorem event_not_mem_append {x : Event} {l₁ l₂ : List Event} (h1 : x ∉ l₁)
    (h2 : x ∉ l₂) : x ∉ l₁ ++ l₂ :=
  fun hm => (List.mem_append.mp hm).elim h1 h2

theorem phaseRecorded_empty (q : ℕ) : phaseRecorded DelibResults.empty q = false := by
  rcases q with - | - | - | - | - | - | - | - | q <;> rfl

/-- The conclusions of C6, given a run that failed with message `e` after
emitting the error-free event prefix `pre`. -/
theorem c6_failure_shape (invoke : Oracle) (topic : List Char) (pre : List Event)
    (e : String) (st : DelibResults)
    (hrun : run_deliberation invoke topic =
      (pre ++ [.deliberation_error e], .failureRun e, st))
    (hpre : ∀ e', Event.deliberation_error e' ∉ pre)
    (hsrc : ∃ k, invoke k = Except.error e)
    (p : ℕ) (hlo : 2 ≤ p) (hhi : p ≤ 6)
    (hbefore : ∀ q, 2 ≤ q → q < p → phaseRecorded st q = true)
    (hafter : ∀ q, p ≤ q → phaseRecorded st q = false) :
    (∃ k, invoke k = Except.error e) ∧
    (run_deliberation invoke topic).1.getLast? = some (.deliberation_error e) ∧
    (∀ e', Event.deliberation_error e' ∈ (run_deliberation invoke topic).1 → e' = e) ∧
    (run_deliberation invoke topic).1.count (.deliberation_error e) = 1 ∧
    (policy_run invoke topic).status = "error" ∧
    (policy_run invoke topic).errorResult = some e ∧
    (policy_run invoke topic).okResults = none ∧
    (∃ p', 2 ≤ p' ∧ p' ≤ 6 ∧
      (∀ q, 2 ≤ q → q < p' → phaseRecorded (run_deliberation invoke topic).2.2 q = true) ∧
      (∀ q, p' ≤ q → phaseRecorded (run_deliberation invoke topic).2.2 q = false)) := by
  have hev : (run_deliberation invoke topic).1 = pre ++ [.deliberation_error e] := by
    rw [hrun]
  have hst : (run_deliberation invoke topic).2.2 = st := by rw [hrun]
  refine ⟨hsrc, ?_, ?_, ?_, ?_, ?_, ?_, ?_⟩
  · rw [hev]
    exact List.getLast?_concat _
  · intro e' hmem
    rw [hev] at hmem
    rcases List.mem_append.mp hmem with h1 | h2
    · exact absurd h1 (hpre e')
    · simpa using h2
  · rw [hev, List.count_append]
    have h0 : pre.count (Event.deliberation_error e) = 0 :=
      List.count_eq_zero.mpr (hpre e)
    simp [h0]
  · simp [policy_run, hrun]
  · simp [policy_run, hrun]
  · simp [policy_run, hrun]
  · exact ⟨p, hlo, hhi, fun q h2 hqp => hst ▸ hbefore q h2 hqp,
      fun q hpq => hst ▸ hafter q hpq⟩

/-- C6: an exception in any agent task invocation aborts the entire
session.  If every invocation succeeds the run succeeds; and whenever the
run fails with message `e`, some invocation raised `e`, exactly one
`deliberation_error` event is emitted (carrying the raw message, as the
final event), the session status becomes "error" with
`results = {'error': e}`, and there is a phase boundary p such that all
phases before p have recorded results and no phase from p onward does. -/
theorem c6_invocation_error_aborts (invoke : Oracle) (topic : List Char) :
    ((∀ k, ∃ v, invoke k = Except.ok v) →
      ∃ d, (run_deliberation invoke topic).2.1 = RunOutcome.successRun d) ∧
    (∀ e, (run_deliberation invoke topic).2.1 = RunOutcome.failureRun e →
      (∃ k, invoke k = Except.error e) ∧
      (run_deliberation invoke topic).1.getLast? = some (.deliberation_error e) ∧
      (∀ e', Event.deliberation_error e' ∈ (run_deliberation invoke topic).1 → e' = e) ∧
      (run_deliberation invoke topic).1.count (.deliberation_error e) = 1 ∧
      (policy_run invoke topic).status = "error" ∧
      (policy_run invoke topic).errorResult = some e ∧
      (policy_run invoke topic).okResults = none ∧
      (∃ p', 2 ≤ p' ∧ p' ≤ 6 ∧
        (∀ q, 2 ≤ q → q < p' →
          phaseRecorded (run_deliberation invoke topic).2.2 q = true) ∧
        (∀ q, p' ≤ q →
          phaseRecorded (run_deliberation invoke topic).2.2 q = false))) := by
  refine ⟨run_deliberation_total invoke topic, ?_⟩
  intro e hfail
  rcases hp2 : phase_problem_statement invoke topic with ⟨e2, r2⟩
  have hn2 : ∀ e', Event.deliberation_error e' ∉ e2 := by
    intro e'
    have := phase_problem_statement_no_error_event invoke topic e'
    rw [hp2] at this
    exact this
  rcases r2 with err | ps
  · have herr : err = e := by
      simp only [run_deliberation, hp2] at hfail
      injection hfail
    subst herr
    refine c6_failure_shape invoke topic
      ([Event.phase_started 1] ++ AGENT_IDS.map Event.agent_created ++
        [Event.phase_completed 1] ++ e2) err DelibResults.empty
      (by simp [run_deliberation, hp2]) ?_
      ⟨.problemTask, phase_problem_statement_error_source invoke topic err (by rw [hp2])⟩
      2 (by omega) (by omega) (fun q h2 hq2 => by omega)
      (fun q _ => phaseRecorded_empty q)
    intro e'
    exact event_not_mem_append (init_events_no_error_event e') (hn2 e')
  · rcases hp3 : phase_research invoke topic with ⟨e3, r3⟩
    have hn3 : ∀ e', Event.deliberation_error e' ∉ e3 := by
      intro e'
      have := phase_research_no_error_event invoke topic e'
      rw [hp3] at this
      exact this
    rcases r3 with err | rs
    · have herr : err = e := by
        simp only [run_deliberation, hp2, hp3] at hfail
        injection hfail
      subst herr
      refine c6_failure_shape invoke topic
        ([Event.phase_started 1] ++ AGENT_IDS.map Event.agent_created ++
          [Event.phase_completed 1] ++ e2 ++ e3) err
        ⟨some ps, none, none, none, none, none, none⟩
        (by simp [run_deliberation, hp2, hp3, DelibResults.empty]) ?_
        (by
          obtain ⟨id, -, hinv⟩ := phase_research_error_source invoke topic err (by rw [hp3])
          exact ⟨.researchTask id, hinv⟩)
        3 (by omega) (by omega) ?_ ?_
      · intro e'
        exact event_not_mem_append
          (event_not_mem_append (init_events_no_error_event e') (hn2 e')) (hn3 e')
      · intro q h2 hq3
        have hq : q = 2 := by omega
        subst hq
        rfl
      · intro q hq
        rcases q with - | - | - | - | - | - | - | - | q <;> first | omega | rfl
    · rcases hp4 : phase_debate invoke DOMAIN_EXPERTS with ⟨e4, r4⟩
      have hn4 : ∀ e', Event.deliberation_error e' ∉ e4 := by
        intro e'
        have := phase_debate_no_error_event invoke DOMAIN_EXPERTS e'
        rw [hp4] at this
        exact this
      rcases r4 with err | db
      · have herr : err = e := by
          simp only [run_deliberation, hp2, hp3, hp4] at hfail
          injection hfail
        subst herr
        refine c6_failure_shape invoke topic
          ([Event.phase_started 1] ++ AGENT_IDS.map Event.agent_created ++
            [Event.phase_completed 1] ++ e2 ++ e3 ++ e4) err
          ⟨some ps, some rs, none, none, none, none, none⟩
          (by simp [run_deliberation, hp2, hp3, hp4, DelibResults.empty]) ?_
          (by
            obtain ⟨r, id, -, hinv⟩ := phase_debate_error_source invoke DOMAIN_EXPERTS err
              (by rw [hp4])
            exact ⟨.debateTask r id, hinv⟩)
          4 (by omega) (by omega) ?_ ?_
        · intro e'
          exact event_not_mem_append (event_not_mem_append
            (event_not_mem_append (init_events_no_error_event e') (hn2 e')) (hn3 e'))
            (hn4 e')
        · intro q h2 hq4
          rcases q with - | - | - | - | q <;> first | omega | rfl
        · intro q hq
          rcases q with - | - | - | - | - | - | - | - | q <;> first | omega | rfl
      · rcases hp5 : phase_voting invoke DOMAIN_EXPERTS with ⟨e5, r5⟩
        have hn5 : ∀ e', Event.deliberation_error e' ∉ e5 := by
          intro e'
          have := phase_voting_no_error_event invoke DOMAIN_EXPERTS e'
          rw [hp5] at this
          exact this
        rcases r5 with err | vs
        · have herr : err = e := by
            simp only [run_deliberation, hp2, hp3, hp4, hp5] at hfail
            injection hfail
          subst herr
          refine c6_failure_shape invoke topic
            ([Event.phase_started 1] ++ AGENT_IDS.map Event.agent_created ++
              [Event.phase_completed 1] ++ e2 ++ e3 ++ e4 ++ e5) err
            ⟨some ps, some rs, some db, none, none, none, none⟩
            (by simp [run_deliberation, hp2, hp3, hp4, hp5, DelibResults.empty]) ?_
            (by
              obtain ⟨id, -, hinv⟩ := phase_voting_error_source invoke DOMAIN_EXPERTS err
                (by rw [hp5])
              exact ⟨.voteTask id, hinv⟩)
            5 (by omega) (by omega) ?_ ?_
          · intro e'
            exact event_not_mem_append (event_not_mem_append (event_not_mem_append
              (event_not_mem_append (init_events_no_error_event e') (hn2 e')) (hn3 e'))
              (hn4 e')) (hn5 e')
          · intro q h2 hq5
            rcases q with - | - | - | - | - | q <;> first | omega | rfl
          · intro q hq
            rcases q with - | - | - | - | - | - | - | - | q <;> first | omega | rfl
        · rcases hp6 : phase_results invoke with ⟨e6, r6⟩
          rcases r6 with err | adec
          · have herr : err = e := by
              simp only [run_deliberation, hp2, hp3, hp4, hp5, hp6] at hfail
              injection hfail
            subst herr
            refine c6_failure_shape invoke topic
              ([Event.phase_started 1] ++ AGENT_IDS.map Event.agent_created ++
                [Event.phase_completed 1] ++ e2 ++ e3 ++ e4 ++ e5 ++ e6) err
              ⟨some ps, some rs, some db, some vs, none, none, none⟩
              (by simp [run_deliberation, hp2, hp3, hp4, hp5, hp6, DelibResults.empty]) ?_
              ⟨.resultsTask, phase_results_error_source invoke err (by rw [hp6])⟩
              6 (by omega) (by omega) ?_ ?_
            · intro e'
              have hn6 : Event.deliberation_error e' ∉ e6 := by
                have := phase_results_no_error_event invoke e'
                rw [hp6] at this
                exact this
              exact event_not_mem_append (event_not_mem_append (event_not_mem_append
                (event_not_mem_append (event_not_mem_append
                  (init_events_no_error_event e') (hn2 e')) (hn3 e')) (hn4 e')) (hn5 e'))
                hn6
            · intro q h2 hq6
              rcases q with - | - | - | - | - | - | q <;> first | omega | rfl
            · intro q hq
              rcases q with - | - | - | - | - | - | - | - | q <;> first | omega | rfl
          · rcases adec with ⟨ann, dec⟩
            simp only [run_deliberation, hp2, hp3, hp4, hp5, hp6] at hfail
            cases hfail

/-- Witness for C6: a concrete oracle whose problem-statement invocation
raises "boom". -/
theorem c6_invocation_error_aborts_witness :
    (∃ k, (fun (k : TaskKey) => match k with
        | TaskKey.problemTask => (Except.error "boom" : Except String (List Char))
        | _ => Except.ok []) k = Except.error "boom") ∧
    (run_deliberation (fun k => match k with
        | TaskKey.problemTask => (Except.error "boom" : Except String (List Char))
        | _ => Except.ok []) (toL "T")).1.getLast? =
      some (.deliberation_error "boom") ∧
    (∀ e', Event.deliberation_error e' ∈ (run_deliberation (fun k => match k with
        | TaskKey.problemTask => (Except.error "boom" : Except String (List Char))
        | _ => Except.ok []) (toL "T")).1 → e' = "boom") ∧
    (run_deliberation (fun k => match k with
        | TaskKey.problemTask => (Except.error "boom" : Except String (List Char))
        | _ => Except.ok []) (toL "T")).1.count (.deliberation_error "boom") = 1 ∧
    (policy_run (fun k => match k with
        | TaskKey.problemTask => (Except.error "boom" : Except String (List Char))
        | _ => Except.ok []) (toL "T")).status = "error" ∧
    (policy_run (fun k => match k with
        | TaskKey.problemTask => (Except.error "boom" : Except String (List Char))
        | _ => Except.ok []) (toL "T")).errorResult = some "boom" ∧
    (policy_run (fun k => match k with
        | TaskKey.problemTask => (Except.error "boom" : Except String (List Char))
        | _ => Except.ok []) (toL "T")).okResults = none ∧
    (∃ p', 2 ≤ p' ∧ p' ≤ 6 ∧
      (∀ q, 2 ≤ q → q < p' →
        phaseRecorded (run_deliberation (fun k => match k with
          | TaskKey.problemTask => (Except.error "boom" : Except String (List Char))
          | _ => Except.ok []) (toL "T")).2.2 q = true) ∧
      (∀ q, p' ≤ q →
        phaseRecorded (run_deliberation (fun k => match k with
          | TaskKey.problemTask => (Except.error "boom" : Except String (List Char))
          | _ => Except.ok []) (toL "T")).2.2 q = false)) :=
  (c6_invocation_error_aborts (fun k => match k with
      | TaskKey.problemTask => (Except.error "boom" : Except String (List Char))
      | _ => Except.ok []) (toL "T")).2 "boom" (by decide)

/-! ### Claim C10: the fallback response and the validator

The counterexample below shows that inserting an innocent role into the
fallback template can create a new code-pattern match across the insertion
boundary, so acceptance needs the whole-text pattern hypothesis.  The
code-keyword count, by contrast, is provably 1 (only "implementation",
from the template) whenever the role and the topic contain no code
keyword: the lemmas below rule out keyword occurrences crossing any
insertion boundary. -/

theorem prefix_append_cases {k X B : List Char} (h : k <+: X ++ B) :
    k <+: X ∨ ∃ k₂, k = X ++ k₂ ∧ k₂ <+: B := by
  obtain ⟨t, ht⟩ := h
  rcases List.append_eq_append_iff.mp ht with ⟨a, ha1, -⟩ | ⟨c, hc1, hc2⟩
  · exact Or.inl ⟨a, ha1.symm⟩
  · exact Or.inr ⟨c, hc1, ⟨t, hc2.symm⟩⟩

theorem suffix_append_cases {k X c : List Char} (h : k <:+ X ++ c) :
    k <:+ c ∨ c <:+ k := by
  obtain ⟨s, hs⟩ := h
  rcases List.append_eq_append_iff.mp hs with ⟨a, -, ha2⟩ | ⟨d, -, hd2⟩
  · exact Or.inr ⟨a, ha2.symm⟩
  · exact Or.inl ⟨d, hd2.symm⟩

theorem infix_append_cases {k A B : List Char} (h : k <:+: A ++ B) :
    k <:+: A ∨ k <:+: B ∨
      ∃ k₁ k₂, k = k₁ ++ k₂ ∧ k₁ ≠ [] ∧ k₂ ≠ [] ∧ k₁ <:+ A ∧ k₂ <+: B := by
  induction A with
  | nil =>
    rw [List.nil_append] at h
    exact Or.inr (Or.inl h)
  | cons a A2 ih =>
    rw [List.cons_append] at h
    rcases List.infix_cons_iff.mp h with hpre | hinf
    · rw [← List.cons_append] at hpre
      rcases prefix_append_cases hpre with h1 | ⟨k₂, hk, h2⟩
      · exact Or.inl h1.isInfix
      · rcases eq_or_ne k₂ [] with rfl | hne
        · rw [List.append_nil] at hk
          exact Or.inl (hk ▸ List.infix_refl _)
        · exact Or.inr (Or.inr ⟨a :: A2, k₂, hk, by simp, hne, List.suffix_refl _, h2⟩)
    · rcases ih hinf with h1 | h2 | ⟨k₁, k₂, hk, hn1, hn2, hs, hp⟩
      · exact Or.inl (List.infix_cons_iff.mpr (Or.inr h1))
      · exact Or.inr (Or.inl h2)
      · exact Or.inr (Or.inr ⟨k₁, k₂, hk, hn1, hn2, hs.trans (List.suffix_cons a A2), hp⟩)

theorem not_infix_append {k A B : List Char} (hA : ¬ k <:+: A) (hB : ¬ k <:+: B)
    (hspan : ∀ k₁ k₂, k = k₁ ++ k₂ → k₁ ≠ [] → k₂ ≠ [] → k₁ <:+ A → k₂ <+: B → False) :
    ¬ k <:+: A ++ B := by
  intro h
  rcases infix_append_cases h with h1 | h2 | ⟨k₁, k₂, hk, hn1, hn2, hs, hp⟩
  · exact hA h1
  · exact hB h2
  · exact hspan k₁ k₂ hk hn1 hn2 hs hp

theorem spanRightB_spec {k c : List Char} (h : spanRightB k c = true) :
    ∀ k₁ k₂, k = k₁ ++ k₂ → k₁ ≠ [] → k₂ ≠ [] → ¬(k₂ <+: c) ∧ ¬(c <+: k₂) := by
  intro k₁ k₂ hk hn1 hn2
  have hlen1 : 0 < k₁.length := List.length_pos.mpr hn1
  have hlen2 : 0 < k₂.length := List.length_pos.mpr hn2
  have hdrop : k.drop k₁.length = k₂ := by
    rw [hk]
    exact List.drop_left k₁ k₂
  have hlt : k₁.length - 1 < k.length := by
    have hsum : k.length = k₁.length + k₂.length := by
      rw [hk, List.length_append]
    omega
  rw [spanRightB] at h
  have hj := List.all_eq_true.mp h (k₁.length - 1) (List.mem_range.mpr hlt)
  simp only at hj
  rw [show k₁.length - 1 + 1 = k₁.length by omega, hdrop] at hj
  have hie : k₂.isEmpty = false := by
    cases k₂ with
    | nil => exact absurd rfl hn2
    | cons _ _ => rfl
  rw [hie, Bool.false_or, Bool.and_eq_true, Bool.not_eq_true', Bool.not_eq_true'] at hj
  constructor
  · intro hp
    rw [← isPrefixCL_iff] at hp
    rw [hj.1] at hp
    cases hp
  · intro hp
    rw [← isPrefixCL_iff] at hp
    rw [hj.2] at hp
    cases hp

theorem spanLeftB_spec {k c : List Char} (h : spanLeftB k c = true) :
    ∀ k₁ k₂, k = k₁ ++ k₂ → k₁ ≠ [] → k₂ ≠ [] → ¬(k₁ <:+ c) ∧ ¬(c <:+ k₁) := by
  intro k₁ k₂ hk hn1 hn2
  have hlen1 : 0 < k₁.length := List.length_pos.mpr hn1
  have hlen2 : 0 < k₂.length := List.length_pos.mpr hn2
  have htake : k.take k₁.length = k₁ := by
    rw [hk]
    exact List.take_left k₁ k₂
  have hdrop : k.drop k₁.length ≠ [] := by
    rw [hk, List.drop_left k₁ k₂]
    exact hn2
  have hlt : k₁.length - 1 < k.length := by
    have hsum : k.length = k₁.length + k₂.length := by
      rw [hk, List.length_append]
    omega
  rw [spanLeftB] at h
  have hj := List.all_eq_true.mp h (k₁.length - 1) (List.mem_range.mpr hlt)
  simp only at hj
  rw [show k₁.length - 1 + 1 = k₁.length by omega, htake] at hj
  have hie : (k.drop k₁.length).isEmpty = false := by
    rcases hd : k.drop k₁.length with - | ⟨a, t⟩
    · exact absurd hd hdrop
    · rfl
  rw [hie, Bool.false_or, Bool.and_eq_true, Bool.not_eq_true', Bool.not_eq_true'] at hj
  constructor
  · intro hp
    rw [← isSuffixCL_iff] at hp
    rw [hj.1] at hp
    cases hp
  · intro hp
    rw [← isSuffixCL_iff] at hp
    rw [hj.2] at hp
    cases hp

/-- If the keyword `k` passes all template side conditions and occurs
neither in the (lowercased) role nor in the topic, it does not occur in
the lowercased fallback text at all: segment absence rules out occurrences
inside one part, the span checks rule out occurrences crossing any
insertion boundary. -/
theorem keywordSafeB_spec {k R T : List Char} (hs : keywordSafeB k = true)
    (hR : ¬ k <:+: lowerL R) (hT : ¬ k <:+: lowerL T) :
    ¬ k <:+: lowerL (create_fallback_response R T) := by
  rw [keywordSafeB] at hs
  simp only [Bool.and_eq_true, Bool.not_eq_true'] at hs
  obtain ⟨⟨⟨⟨⟨⟨⟨⟨⟨⟨⟨⟨h0, h1⟩, h2⟩, h3⟩, h4⟩, sl0⟩, sr1⟩, sl1⟩, sr2⟩, sl2⟩, sr3⟩, sl3⟩,
    sr4⟩ := hs
  have mkn : ∀ {seg : List Char}, containsCL k (lowerL seg) = false →
      ¬ k <:+: lowerL seg := by
    intro seg hfa hx
    rw [(containsCL_iff _ _).mpr hx] at hfa
    cases hfa
  have n0 := mkn h0
  have n1 := mkn h1
  have n2 := mkn h2
  have n3 := mkn h3
  have n4 := mkn h4
  have L : lowerL (create_fallback_response R T) =
      lowerL fbSeg0 ++ lowerL R ++ lowerL fbSeg1 ++ lowerL T ++ lowerL fbSeg2 ++
      lowerL T ++ lowerL fbSeg3 ++ lowerL T ++ lowerL fbSeg4 := by
    simp [create_fallback_response, lowerL, List.map_append]
  rw [L]
  have N7 : ¬ k <:+: (lowerL fbSeg0 ++ lowerL R) :=
    not_infix_append n0 hR
      (fun k₁ k₂ hk hn1 hn2 hsuf _ => (spanLeftB_spec sl0 k₁ k₂ hk hn1 hn2).1 hsuf)
  have N6 : ¬ k <:+: (lowerL fbSeg0 ++ lowerL R ++ lowerL fbSeg1) :=
    not_infix_append N7 n1
      (fun k₁ k₂ hk hn1 hn2 _ hp => (spanRightB_spec sr1 k₁ k₂ hk hn1 hn2).1 hp)
  have N5 : ¬ k <:+: (lowerL fbSeg0 ++ lowerL R ++ lowerL fbSeg1 ++ lowerL T) :=
    not_infix_append N6 hT
      (fun k₁ k₂ hk hn1 hn2 hsuf _ => by
        rcases suffix_append_cases hsuf with hc | hc
        · exact (spanLeftB_spec sl1 k₁ k₂ hk hn1 hn2).1 hc
        · exact (spanLeftB_spec sl1 k₁ k₂ hk hn1 hn2).2 hc)
  have N4 : ¬ k <:+: (lowerL fbSeg0 ++ lowerL R ++ lowerL fbSeg1 ++ lowerL T ++
      lowerL fbSeg2) :=
    not_infix_append N5 n2
      (fun k₁ k₂ hk hn1 hn2 _ hp => (spanRightB_spec sr2 k₁ k₂ hk hn1 hn2).1 hp)
  have N3 : ¬ k <:+: (lowerL fbSeg0 ++ lowerL R ++ lowerL fbSeg1 ++ lowerL T ++
      lowerL fbSeg2 ++ lowerL T) :=
    not_infix_append N4 hT
      (fun k₁ k₂ hk hn1 hn2 hsuf _ => by
        rcases suffix_append_cases hsuf with hc | hc
        · exact (spanLeftB_spec sl2 k₁ k₂ hk hn1 hn2).1 hc
        · exact (spanLeftB_spec sl2 k₁ k₂ hk hn1 hn2).2 hc)
  have N2 : ¬ k <:+: (lowerL fbSeg0 ++ lowerL R ++ lowerL fbSeg1 ++ lowerL T ++
      lowerL fbSeg2 ++ lowerL T ++ lowerL fbSeg3) :=
    not_infix_append N3 n3
      (fun k₁ k₂ hk hn1 hn2 _ hp => (spanRightB_spec sr3 k₁ k₂ hk hn1 hn2).1 hp)
  have N1 : ¬ k <:+: (lowerL fbSeg0 ++ lowerL R ++ lowerL fbSeg1 ++ lowerL T ++
      lowerL fbSeg2 ++ lowerL T ++ lowerL fbSeg3 ++ lowerL T) :=
    not_infix_append N2 hT
      (fun k₁ k₂ hk hn1 hn2 hsuf _ => by
        rcases suffix_append_cases hsuf with hc | hc
        · exact (spanLeftB_spec sl3 k₁ k₂ hk hn1 hn2).1 hc
        · exact (spanLeftB_spec sl3 k₁ k₂ hk hn1 hn2).2 hc)
  exact not_infix_append N1 n4
    (fun k₁ k₂ hk hn1 hn2 _ hp => (spanRightB_spec sr4 k₁ k₂ hk hn1 hn2).1 hp)

theorem code_kw_count_fallback (R T : List Char)
    (hR : ∀ kw ∈ CODE_KEYWORDS, containsCL kw (lowerL R) = false)
    (hT : ∀ kw ∈ CODE_KEYWORDS, containsCL kw (lowerL T) = false) :
    kwCount CODE_KEYWORDS (lowerL (create_fallback_response R T)) = 1 := by
  have hsafe : (CODE_KEYWORDS.all
      (fun kw => kw == toL "implementation" || keywordSafeB kw)) = true := by decide
  have hsafe2 : ∀ kw ∈ CODE_KEYWORDS, kw ≠ toL "implementation" →
      keywordSafeB kw = true := by
    intro kw hmem hne
    have := List.all_eq_true.mp hsafe kw hmem
    rw [Bool.or_eq_true] at this
    rcases this with hbeq | hok
    · exact absurd (eq_of_beq hbeq) hne
    · exact hok
  have habsent : ∀ kw ∈ CODE_KEYWORDS, kw ≠ toL "implementation" →
      containsCL kw (lowerL (create_fallback_response R T)) = false := by
    intro kw hmem hne
    have hRn : ¬ kw <:+: lowerL R := fun hx => by
      have hc := (containsCL_iff _ _).mpr hx
      rw [hR kw hmem] at hc
      cases hc
    have hTn : ¬ kw <:+: lowerL T := fun hx => by
      have hc := (containsCL_iff _ _).mpr hx
      rw [hT kw hmem] at hc
      cases hc
    have := keywordSafeB_spec (hsafe2 kw hmem hne) hRn hTn
    rw [Bool.eq_false_iff]
    intro hc
    exact this ((containsCL_iff _ _).mp hc)
  have hpresent : containsCL (toL "implementation")
      (lowerL (create_fallback_response R T)) = true := by
    have hseg : (toL "implementation") <:+: lowerL fbSeg4 := by decide
    have hsuf : lowerL fbSeg4 <:+ lowerL (create_fallback_response R T) := by
      have L : lowerL (create_fallback_response R T) =
          lowerL fbSeg0 ++ lowerL R ++ lowerL fbSeg1 ++ lowerL T ++ lowerL fbSeg2 ++
          lowerL T ++ lowerL fbSeg3 ++ lowerL T ++ lowerL fbSeg4 := by
        simp [create_fallback_response, lowerL, List.map_append]
      rw [L]
      exact List.suffix_append _ _
    exact (containsCL_iff _ _).mpr (hseg.trans hsuf.isInfix)
  have hdrop3 : CODE_KEYWORDS = CODE_KEYWORDS.take 3 ++
      toL "implementation" :: CODE_KEYWORDS.drop 4 := by rfl
  have hAmem : ∀ kw ∈ CODE_KEYWORDS.take 3, kw ∈ CODE_KEYWORDS ∧
      kw ≠ toL "implementation" := by decide
  have hBmem : ∀ kw ∈ CODE_KEYWORDS.drop 4, kw ∈ CODE_KEYWORDS ∧
      kw ≠ toL "implementation" := by decide
  rw [kwCount]
  conv_lhs => rw [hdrop3]
  rw [List.countP_append, List.countP_cons]
  have hA : List.countP (fun kw => containsCL kw (lowerL (create_fallback_response R T)))
      (CODE_KEYWORDS.take 3) = 0 := by
    rw [List.countP_eq_zero]
    intro kw hmem
    obtain ⟨hm, hne⟩ := hAmem kw hmem
    simp [habsent kw hm hne]
  have hB : List.countP (fun kw => containsCL kw (lowerL (create_fallback_response R T)))
      (CODE_KEYWORDS.drop 4) = 0 := by
    rw [List.countP_eq_zero]
    intro kw hmem
    obtain ⟨hm, hne⟩ := hBmem kw hmem
    simp [habsent kw hm hne]
  rw [hA, hB]
  simp [hpresent]

theorem policy_kw_count_fallback (R T : List Char) :
    2 ≤ kwCount POLICY_KEYWORDS (lowerL (create_fallback_response R T)) := by
  have L : lowerL (create_fallback_response R T) =
      lowerL fbSeg0 ++ lowerL R ++ lowerL fbSeg1 ++ lowerL T ++ lowerL fbSeg2 ++
      lowerL T ++ lowerL fbSeg3 ++ lowerL T ++ lowerL fbSeg4 := by
    simp [create_fallback_response, lowerL, List.map_append]
  have h1 : containsCL (toL "policy") (lowerL (create_fallback_response R T)) = true := by
    have hseg : (toL "policy") <:+: lowerL fbSeg2 := by decide
    have hinf : lowerL fbSeg2 <:+: lowerL (create_fallback_response R T) := by
      rw [L]
      exact ⟨lowerL fbSeg0 ++ lowerL R ++ lowerL fbSeg1 ++ lowerL T,
        lowerL T ++ lowerL fbSeg3 ++ lowerL T ++ lowerL fbSeg4,
        by simp [List.append_assoc]⟩
    exact (containsCL_iff _ _).mpr (hseg.trans hinf)
  have h2 : containsCL (toL "economic") (lowerL (create_fallback_response R T)) = true := by
    have hseg : (toL "economic") <:+: lowerL fbSeg3 := by decide
    have hinf : lowerL fbSeg3 <:+: lowerL (create_fallback_response R T) := by
      rw [L]
      exact ⟨lowerL fbSeg0 ++ lowerL R ++ lowerL fbSeg1 ++ lowerL T ++ lowerL fbSeg2 ++
        lowerL T, lowerL T ++ lowerL fbSeg4, by simp [List.append_assoc]⟩
    exact (containsCL_iff _ _).mpr (hseg.trans hinf)
  have hsub : ([toL "policy", toL "economic"] : List (List Char)).Sublist
      POLICY_KEYWORDS := by
    rw [POLICY_KEYWORDS]
    exact List.Sublist.cons₂ _ (List.Sublist.cons _ (List.Sublist.cons₂ _
      (List.nil_sublist _)))
  have := List.Sublist.countP_le
    (fun kw => containsCL kw (lowerL (create_fallback_response R T))) hsub
  rw [kwCount]
  refine le_trans ?_ this
  simp [List.countP_cons, h1, h2]

theorem fallback_length_ge (R T : List Char) :
    50 ≤ (create_fallback_response R T).length := by
  have h4 : 50 ≤ fbSeg4.length := by decide
  simp only [create_fallback_response, List.length_append]
  omega

/-- C10 counterexample: the role "Upper class" and the topic "Congestion
Tax" each contain no code pattern and no code keyword, yet the fallback
built from them is rejected by the validator — the inserted role creates
the new match "class Analysis:" for the class-declaration pattern across
the insertion boundary. -/
theorem c10_fallback_counterexample :
    firstPatternIdx (lowerL (toL "Upper class")) = none ∧
    (∀ kw ∈ CODE_KEYWORDS, containsCL kw (lowerL (toL "Upper class")) = false) ∧
    firstPatternIdx (lowerL (toL "Congestion Tax")) = none ∧
    (∀ kw ∈ CODE_KEYWORDS, containsCL kw (lowerL (toL "Congestion Tax")) = false) ∧
    (is_valid_policy_output
      (create_fallback_response (toL "Upper class") (toL "Congestion Tax"))).1 = false := by
  refine ⟨by decide, by decide, by decide, by decide, by decide⟩

/-- C10 (amended): whenever no code pattern matches the constructed
fallback text and the role and topic contain no code keywords, the
fallback response passes the validator: its length is at least 50, its
code-keyword count is exactly 1 (only "implementation", contributed by the
template itself) and it contains at least 2 policy keywords. -/
theorem c10_fallback_accepted (R T : List Char)
    (hpat : firstPatternIdx (lowerL (create_fallback_response R T)) = none)
    (hR : ∀ kw ∈ CODE_KEYWORDS, containsCL kw (lowerL R) = false)
    (hT : ∀ kw ∈ CODE_KEYWORDS, containsCL kw (lowerL T) = false) :
    is_valid_policy_output (create_fallback_response R T) =
      (true, VReason.validPolicyAnalysis) := by
  have hlen := fallback_length_ge R T
  have hck := code_kw_count_fallback R T hR hT
  have hpk := policy_kw_count_fallback R T
  rw [is_valid_policy_output]
  rw [if_neg (Nat.not_lt.mpr hlen)]
  simp only [hpat, hck]
  rw [if_neg (by norm_num)]
  rw [if_neg (Nat.not_lt.mpr hpk)]

/-- Witness for C10 (amended) at a realistic role and topic. -/
theorem c10_fallback_accepted_witness :
    is_valid_policy_output
        (create_fallback_response (toL "Economic Analyst") (toL "Congestion Tax")) =
      (true, VReason.validPolicyAnalysis) :=
  c10_fallback_accepted (toL "Economic Analyst") (toL "Congestion Tax")
    (by decide) (by decide) (by decide)

end KaziWiz
